import Mathlib

/-!
# Verification of the Project-Memories ingestion/organization engine

Shallow embedding of the core logic of `src/app.js` / `src/renderer.js`
(Snapchat Memories Viewer).  JavaScript `Date` objects are modelled as
`Option Int` (milliseconds since epoch, `none` = the invalid date / `NaN`);
JavaScript numbers occurring in the location pipeline are modelled as exact
rationals represented by power-of-ten fractions (`Option JSNum`, `none` =
`NaN`), with the binary64 caveat documented at the location section; the
host environment
(`new Date(string)` parsing, `Date#getFullYear`/`getMonth` in the local
time zone, and the Electron `readFileAsDataUrl` IPC call) is a parameter
`Host`.  All definitions are executable.
-/

/-- A JavaScript `Date` value: `some ms` for a valid date (milliseconds since
the epoch), `none` for an invalid date (`NaN` time value). -/
def JSDate : Type := Option Int

instance : DecidableEq JSDate := by unfold JSDate; infer_instance

/-- The host environment: everything the engine calls that is outside the
repository source (Electron IPC and the JS engine's date facilities). -/
structure Host where
  /-- `new Date(s)` for a non-empty cleaned string: `some ms` or `none` (Invalid Date). -/
  dateParse : String → Option Int
  /-- `Date#getFullYear` and `Date#getMonth` of a *valid* date, in the host's
  local time zone: milliseconds since epoch ↦ (year, month index 0–11). -/
  calendar : Int → Int × Fin 12
  /-- `window.electron.readFileAsDataUrl(path)`: `some dataUrl` on success,
  `none` on failure (`result.success === false`). -/
  readFileAsDataUrl : String → Option String

/-- Replace the first occurrence of `pat` in a character list by `repl`
(helper for `replaceFirst`, recursing over the string's characters). -/
def listReplaceFirst (l pat repl : List Char) : List Char :=
  match l with
  | [] => if pat.isPrefixOf ([] : List Char) then repl else []
  | c :: rest =>
    if pat.isPrefixOf (c :: rest) then repl ++ (c :: rest).drop pat.length
    else c :: listReplaceFirst rest pat repl

/-- Replace the first occurrence of pattern `pat` in `s` by `repl`:
JavaScript `s.replace(pat, repl)` with a string pattern replaces only the
first occurrence. -/
def replaceFirst (s pat repl : String) : String :=
  String.mk (listReplaceFirst s.data pat.data repl.data)

/-- JavaScript `String#trim`: strip leading and trailing whitespace. -/
def jsTrim (s : String) : String :=
  String.mk (((s.data.dropWhile Char.isWhitespace).reverse.dropWhile
    Char.isWhitespace).reverse)

/-- Model of `parseMemoryDate` (app.js): empty/absent date strings yield the invalid
date; otherwise the `" UTC"` suffix token is removed (first occurrence), the
string is trimmed and handed to the host's generic date parsing. -/
def parseMemoryDate (host : Host) (dateString : String) : JSDate :=
  if dateString = "" then (none : Option Int)
  else host.dateParse (jsTrim (replaceFirst dateString " UTC" ""))

/-- Pluralizing label `«n» «unit»(s) ago` as built by `getTimeAgo`. -/
def agoLabel (n : Int) (unit : String) : String :=
  toString n ++ " " ++ (if n = 1 then unit else unit ++ "s") ++ " ago"

/-- Model of `getTimeAgo` (unnamed/part_000): bucket the difference `now - date` into
years/months/days/hours/minutes, first non-zero bucket (in that order) wins,
otherwise "Just now".  For an invalid `date` the difference is `NaN`, every
`Math.floor` result is `NaN`, every `> 0` comparison is false, and the final
branch is taken; this is modelled by the `none` case.  `Math.floor(a/b)` for
`b > 0` is floor division (`Int.fdiv`). -/
def getTimeAgo (now : Int) (date : JSDate) : String :=
  match date with
  | none => "Just now"
  | some d =>
    let diffMs : Int := now - d
    let diffSeconds := Int.fdiv diffMs 1000
    let diffMinutes := Int.fdiv diffSeconds 60
    let diffHours := Int.fdiv diffMinutes 60
    let diffDays := Int.fdiv diffHours 24
    let diffMonths := Int.fdiv diffDays 30
    let diffYears := Int.fdiv diffDays 365
    if diffYears > 0 then agoLabel diffYears "year"
    else if diffMonths > 0 then agoLabel diffMonths "month"
    else if diffDays > 0 then agoLabel diffDays "day"
    else if diffHours > 0 then agoLabel diffHours "hour"
    else if diffMinutes > 0 then agoLabel diffMinutes "minute"
    else "Just now"

/-! ## Ingestion data model (renderer.js `processFiles`) -/

/-- The structured result of `JSON.parse(file.content)` restricted to the four
keys the engine reads (`Date`, `Media Type`, `Location`, `Location Name`);
`none` on a field means the key is absent from the JSON object. -/
structure MetaRecord where
  dateField : Option String
  mediaTypeField : Option String
  locationField : Option String
  locationNameField : Option String
deriving DecidableEq, Repr

/-- One entry of the file list produced by the folder-selection collaborator
(`result.files`): a name, a filesystem path, a kind tag (`file.type`, the
string `"json"` for metadata records) and — for metadata files — the result
of parsing its content (`none` models a `JSON.parse` exception, which makes
`processFiles` skip the file). -/
structure FileEntry where
  name : String
  path : String
  ftype : String
  content : Option MetaRecord
deriving DecidableEq, Repr

/-- The two fields of a matched media `file` object the engine ever reads
(`mediaFile.name`, `mediaFile.path`); the rehydrated object
`{name: m.mediaName, path: m.mediaPath}` stores a possibly-null name. -/
structure MediaRef where
  name : Option String
  path : String
deriving DecidableEq, Repr

/-- A reconstructed memory entity, exactly the object pushed by
`processFiles` / `loadMemoriesData` onto `memoriesData`. -/
structure Memory where
  filename : String
  date : String
  mediaType : String
  location : String
  locationName : Option String
  mediaFile : Option MediaRef
  mediaUrl : Option String
  mediaName : Option String
deriving DecidableEq, Repr

/-- One persisted record as produced by `saveMemoriesData`'s `dataToSave`
mapping. -/
structure PersistedRecord where
  filename : String
  date : String
  mediaType : String
  location : String
  locationName : Option String
  mediaName : Option String
  mediaPath : Option String
deriving DecidableEq, Repr

/-- JavaScript `v || d` where `v` is a JSON string field: absent (`undefined`)
and the empty string are falsy. -/
def jsOrString (v : Option String) (d : String) : String :=
  match v with
  | some s => if s = "" then d else s
  | none => d

/-- JavaScript `v || null` for a string field: yields `null` for absent or
empty-string values. -/
def jsOrNull (v : Option String) : Option String :=
  match v with
  | some s => if s = "" then none else some s
  | none => none

/-- The filename stem: `file.name.split('.')[0]`, the substring before the
first dot (whole name if there is no dot, empty for names starting with a
dot). -/
def stemOf (name : String) : String :=
  String.mk (name.data.takeWhile (fun c => c != '.'))

/-- Lookup in the nested `fileMap`: `fileMap[baseName][n]` is populated by
`fileMap[file.name.split('.')[0]][file.name] = file` for every file, later
files overwriting earlier ones with the same name.  Because the probed name
`n` is always `baseName + ext` with `baseName` dot-free, `n` determines its
own stem, so the lookup reduces to: the last file in the list whose name is
`n`. -/
def fileLookup (files : List FileEntry) (n : String) : Option FileEntry :=
  (files.filter (fun f => f.name = n)).getLast?

/-- The fixed ordered media-extension preference list of `processFiles`
(image formats before video formats). -/
def mediaExtensions : List String :=
  [".jpg", ".jpeg", ".png", ".gif", ".mp4", ".mov", ".webm"]

/-- The matching loop of `processFiles`: try each extension in order and take
the first `baseName + ext` present in the file map (`break` on first hit). -/
def matchMedia (files : List FileEntry) (baseName : String) : Option FileEntry :=
  mediaExtensions.findSome? (fun ext => fileLookup files (baseName ++ ext))

/-- The body of the `processFiles` loop for one successfully parsed metadata
file: match a sibling media file, attempt to load it into a displayable data
URL (failure leaves `mediaUrl` null), and build the memory object. -/
def buildMemory (host : Host) (files : List FileEntry) (f : FileEntry)
    (data : MetaRecord) : Memory :=
  let mediaFile := matchMedia files (stemOf f.name)
  { filename := f.name
    date := jsOrString data.dateField ""
    mediaType := jsOrString data.mediaTypeField "Unknown"
    location := jsOrString data.locationField "Unknown location"
    locationName := jsOrNull data.locationNameField
    mediaFile := mediaFile.map (fun mf => { name := some mf.name, path := mf.path })
    mediaUrl := mediaFile.bind (fun mf => host.readFileAsDataUrl mf.path)
    mediaName := mediaFile.map (fun mf => mf.name) }

/-- The unsorted `memoriesData` list built by the `processFiles` loop: one
memory per metadata file whose content parses, in file-list order. -/
def ingestRaw (host : Host) (files : List FileEntry) : List Memory :=
  (files.filter (fun f => f.ftype = "json")).filterMap
    (fun f => (f.content).map (buildMemory host files f))

/-- The ECMAScript `SortCompare` value of the comparator
`(a, b) => parseMemoryDate(b.date) - parseMemoryDate(a.date)`: the numeric
difference of the two time values, with `NaN` (either date invalid) mapped
to `+0` as required by the `SortCompare` abstract operation. -/
def memCmp (host : Host) (a b : Memory) : Int :=
  match parseMemoryDate host a.date, parseMemoryDate host b.date with
  | some x, some y => y - x
  | _, _ => 0

/-- The "should not come after" relation induced by `memCmp`:
`a` may stay before `b` when the comparator is `≤ 0`.  `Array#sort` is
required to be stable; `insertionSort` over this relation is the stable
reference model (for a consistent comparator every stable sort agrees with
it, and for the inconsistent `NaN` cases — where ECMAScript leaves the order
implementation-defined — it matches the straightforward stable algorithm:
elements comparing `0` do not move past each other). -/
def memLE (host : Host) (a b : Memory) : Prop :=
  memCmp host a b ≤ 0

instance (host : Host) : DecidableRel (memLE host) := fun a b =>
  inferInstanceAs (Decidable (memCmp host a b ≤ 0))

/-- `processFiles` (renderer.js): build one memory per parsed metadata file,
then sort `memoriesData` by the date comparator (newest first). -/
def processFiles (host : Host) (files : List FileEntry) : List Memory :=
  List.insertionSort (memLE host) (ingestRaw host files)

/-- Host for the C1 counterexample: it can parse exactly one timestamp. -/
def c1Host : Host :=
  { dateParse := fun s => if s = "2024-01-01 00:00:00" then some 1704067200000 else none
    calendar := fun _ => (0, 0)
    readFileAsDataUrl := fun _ => none }

/-- Two metadata files: `a.json` with an empty (unparsable) date string,
`b.json` with a valid one, ingested in that order. -/
def c1Files : List FileEntry :=
  [ { name := "a.json", path := "/a.json", ftype := "json"
      content := some { dateField := some "", mediaTypeField := none
                        locationField := none, locationNameField := none } }
  , { name := "b.json", path := "/b.json", ftype := "json"
      content := some { dateField := some "2024-01-01 00:00:00 UTC", mediaTypeField := none
                        locationField := none, locationNameField := none } } ]

/-- Host for the C1 amended-theorem witness: parses two timestamps. -/
def c1WitnessHost : Host :=
  { dateParse := fun s =>
      if s = "2024-01-01 00:00:00" then some 1704067200000
      else if s = "2023-01-01 00:00:00" then some 1672531200000
      else none
    calendar := fun _ => (0, 0)
    readFileAsDataUrl := fun _ => none }

/-- File list for the C1 amended-theorem witness (older date first). -/
def c1WitnessFiles : List FileEntry :=
  [ { name := "old.json", path := "/old.json", ftype := "json"
      content := some { dateField := some "2023-01-01 00:00:00 UTC", mediaTypeField := none
                        locationField := none, locationNameField := none } }
  , { name := "new.json", path := "/new.json", ftype := "json"
      content := some { dateField := some "2024-01-01 00:00:00 UTC", mediaTypeField := none
                        locationField := none, locationNameField := none } } ]


/-! ## Persistence round trip (renderer.js `saveMemoriesData` / `loadMemoriesData`) -/

/-- The `dataToSave` mapping of `saveMemoriesData`: strip the transient
displayable handle and the file object, keeping only stable fields
(`mediaPath` is `m.mediaFile ? m.mediaFile.path : null`). -/
def toPersistable (m : Memory) : PersistedRecord :=
  { filename := m.filename
    date := m.date
    mediaType := m.mediaType
    location := m.location
    locationName := m.locationName
    mediaName := m.mediaName
    mediaPath := m.mediaFile.map (fun mf => mf.path) }

/-- The records handed to `window.electron.saveMemoriesData` (the real
function also skips saving altogether when the catalog is empty; the record
shaping itself is this map). -/
def saveMemoriesData (l : List Memory) : List PersistedRecord :=
  l.map toPersistable

/-- The body of the `loadMemoriesData` restore loop for one stored record:
re-request a displayable handle when a media path was stored (`if
(m.mediaPath)` — null and the empty string are falsy), tolerating load
failure, and rebuild the memory object. -/
def rehydrate (host : Host) (m : PersistedRecord) : Memory :=
  { filename := m.filename
    date := m.date
    mediaType := m.mediaType
    location := m.location
    locationName := m.locationName
    mediaName := m.mediaName
    mediaFile :=
      match m.mediaPath with
      | some p => if p = "" then none else some { name := m.mediaName, path := p }
      | none => none
    mediaUrl :=
      match m.mediaPath with
      | some p => if p = "" then none else host.readFileAsDataUrl p
      | none => none }

/-- `loadMemoriesData` (renderer.js): rehydrate every stored record in
order (no re-sort). -/
def loadMemoriesData (host : Host) (records : List PersistedRecord) : List Memory :=
  records.map (rehydrate host)

/-- The stable metadata fields of a Memory — everything except the transient
displayable handle `mediaUrl`. -/
def metadataFields (m : Memory) :
    String × String × String × String × Option String × Option String × Option MediaRef :=
  (m.filename, m.date, m.mediaType, m.location, m.locationName, m.mediaName, m.mediaFile)

/-! ## Concrete inputs for claims C2, C3, C4 -/

/-- Host for the C2 counterexample: the media-loading collaborator always
fails. -/
def c2Host : Host :=
  { dateParse := fun _ => none
    calendar := fun _ => (0, 0)
    readFileAsDataUrl := fun _ => none }

/-- A metadata file with a sibling media file whose load will fail. -/
def c2Files : List FileEntry :=
  [ { name := "a.json", path := "/a.json", ftype := "json"
      content := some { dateField := none, mediaTypeField := none
                        locationField := none, locationNameField := none } }
  , { name := "a.jpg", path := "/a.jpg", ftype := "media", content := none } ]

/-- Host for the C3 counterexample (loads always succeed). -/
def c3Host : Host :=
  { dateParse := fun _ => none
    calendar := fun _ => (0, 0)
    readFileAsDataUrl := fun p => some ("data:" ++ p) }

/-- A matched media file whose filesystem path is the empty string: the
persisted `mediaPath` is `""`, which rehydration treats as falsy (absent). -/
def c3Files : List FileEntry :=
  [ { name := "a.json", path := "/a.json", ftype := "json"
      content := some { dateField := none, mediaTypeField := none
                        locationField := none, locationNameField := none } }
  , { name := "a.jpg", path := "", ftype := "media", content := none } ]

/-- Host for the C3 amended-theorem witness. -/
def c3WitnessHost : Host :=
  { dateParse := fun _ => none
    calendar := fun _ => (0, 0)
    readFileAsDataUrl := fun p => some ("data:" ++ p) }

/-- File list for the C3 amended-theorem witness: one matched media file
with a non-empty path, one metadata file with no sibling. -/
def c3WitnessFiles : List FileEntry :=
  [ { name := "trip.json", path := "/trip.json", ftype := "json"
      content := some { dateField := none, mediaTypeField := some "Image"
                        locationField := none, locationNameField := none } }
  , { name := "trip.jpg", path := "/trip.jpg", ftype := "media", content := none }
  , { name := "lone.json", path := "/lone.json", ftype := "json"
      content := some { dateField := none, mediaTypeField := none
                        locationField := none, locationNameField := none } } ]

/-- Host for the C4 example. -/
def c4Host : Host :=
  { dateParse := fun _ => none
    calendar := fun _ => (0, 0)
    readFileAsDataUrl := fun p => some ("data:" ++ p) }

/-- The claim's example: `trip.json` with siblings `trip.jpg` and
`trip.mp4`. -/
def c4Files : List FileEntry :=
  [ { name := "trip.json", path := "/trip.json", ftype := "json"
      content := some { dateField := none, mediaTypeField := none
                        locationField := none, locationNameField := none } }
  , { name := "trip.jpg", path := "/trip.jpg", ftype := "media", content := none }
  , { name := "trip.mp4", path := "/trip.mp4", ftype := "media", content := none } ]


/-! ## Flashback sampling (app.js `generateFlashbacks`) -/

/-- The sampling loop of `generateFlashbacks`: `k` iterations remain, `i`
counts iterations (feeding the random source), and each step picks
`randomIndex = Math.floor(Math.random() * len)` — modelled by the abstract
draw `rand i len`, which satisfies `0 < len → rand i len < len` — pushes that
element and splices it out.  The `none` branch of the lookup is unreachable
under that bound. -/
def sampleAux {α : Type} (rand : Nat → Nat → Nat) : Nat → Nat → List α → List α
  | 0, _, _ => []
  | k + 1, i, l =>
    match l[rand i l.length]? with
    | some x => x :: sampleAux rand k (i + 1) (l.eraseIdx (rand i l.length))
    | none => []

/-- `generateFlashbacks` (app.js, the sampling part): draw
`Math.min(4, length)` memories without replacement from a copy of the
catalog.  (On an empty catalog the function returns before sampling; the
count is then `0`, which agrees.) -/
def generateFlashbacks {α : Type} (rand : Nat → Nat → Nat) (l : List α) : List α :=
  sampleAux rand (min 4 l.length) 0 l

/-! ## Navigation cursor (unnamed/part_000 modal navigation) -/

/-- The navigation part of the modal state: `currentMemoryList` and
`currentMemoryIndex` (an integer; `-1` when nothing is found). -/
structure NavState where
  currentMemoryList : List Memory
  currentMemoryIndex : Int
deriving DecidableEq, Repr

/-- JavaScript `list[i]` for a possibly out-of-range or negative integer
index: `undefined` (here `none`) outside the range. -/
def jsListGet (l : List Memory) (i : Int) : Option Memory :=
  if 0 ≤ i then l[i.toNat]? else none

/-- JavaScript `Array#indexOf` on a possibly-`undefined` argument: the first
index of the value, `-1` when absent (always `-1` for `undefined`). -/
def jsIndexOf (l : List Memory) (x : Option Memory) : Int :=
  match x with
  | none => -1
  | some v =>
    match l.findIdx? (fun y => y = v) with
    | some i => (i : Int)
    | none => -1

/-- The navigation-state effect of `openMemoryModal(memory, memoryList,
index)`: store the list and set `currentMemoryIndex = index >= 0 ? index :
currentMemoryList.indexOf(memory)`. -/
def openModalNav (memory : Option Memory) (memoryList : List Memory) (index : Int) :
    NavState :=
  { currentMemoryList := memoryList
    currentMemoryIndex := if 0 ≤ index then index else jsIndexOf memoryList memory }

/-- `navigateToNextMemory`: advance by one if not at the last position
(re-opening the modal at `currentMemoryIndex + 1`), no-op otherwise. -/
def navigateToNextMemory (s : NavState) : NavState :=
  if s.currentMemoryIndex < (s.currentMemoryList.length : Int) - 1 then
    openModalNav (jsListGet s.currentMemoryList (s.currentMemoryIndex + 1))
      s.currentMemoryList (s.currentMemoryIndex + 1)
  else s

/-- `navigateToPreviousMemory`: step back by one if not at position 0, no-op
otherwise. -/
def navigateToPreviousMemory (s : NavState) : NavState :=
  if 0 < s.currentMemoryIndex then
    openModalNav (jsListGet s.currentMemoryList (s.currentMemoryIndex - 1))
      s.currentMemoryList (s.currentMemoryIndex - 1)
  else s

/-- The next-button visibility condition of `updateNavigationButtons`
(`currentMemoryIndex < currentMemoryList.length - 1`), i.e. `hasNext`. -/
def hasNext (s : NavState) : Bool :=
  s.currentMemoryIndex < (s.currentMemoryList.length : Int) - 1

/-- The previous-button visibility condition of `updateNavigationButtons`
(`currentMemoryIndex > 0`), i.e. `hasPrevious`. -/
def hasPrevious (s : NavState) : Bool :=
  0 < s.currentMemoryIndex

/-- A placeholder memory for the C9 example list. -/
def c9Mem (s : String) : Memory :=
  { filename := s, date := "", mediaType := "Unknown", location := "Unknown location"
    locationName := none, mediaFile := none, mediaUrl := none, mediaName := none }

/-- A 5-item list for the C9 example. -/
def c9List : List Memory :=
  [c9Mem "0", c9Mem "1", c9Mem "2", c9Mem "3", c9Mem "4"]

/-- The C9 example cursor: the 5-item list opened at index 2. -/
def c9Cursor : NavState :=
  { currentMemoryList := c9List, currentMemoryIndex := 2 }


/-! ## Location resolution (app.js `normalizeCoordinates`,
`getNormalizedLocationKey`, `getLocationName`)

JavaScript numbers in the coordinate pipeline are modelled as exact
rationals represented by unnormalized fractions with a positive
power-of-ten denominator (`Option JSNum`, `none` = `NaN`); IEEE-754 rounding
of literals and arithmetic is not modelled.  The claims proved below only
depend on the rounded 2-decimal values.  Exact-rational rounding agrees
with the program's binary64 computation except at inputs whose decimal
value sits on (or whose nearest double crosses) a `.xx5` half-way tie:
there the nearest double can fall on the other side — JavaScript computes
`1.005 * 100 = 100.49999999999999`, which `Math.round` takes to `100`,
while the exact value rounds to `101`.  Every concrete coordinate used in
the witnesses and examples below is chosen away from such ties, where the
two computations coincide. -/

/-- An exact rational `num / den` with `den` a positive power of ten (the
constructors below only build such values).  This represents the JavaScript
number flowing through `parseFloat` / `Math.round` / `toFixed`. -/
structure JSNum where
  num : Int
  den : Nat
deriving DecidableEq, Repr

/-- The value `q * 100` (`lat * 100` before `Math.round`). -/
def jsMul100 (q : JSNum) : JSNum :=
  { num := q.num * 100, den := q.den }

/-- `Math.abs`. -/
def jsAbs (q : JSNum) : JSNum :=
  { num := (q.num.natAbs : Int), den := q.den }

/-- `Math.round`: round half toward positive infinity,
`⌊q + 1/2⌋ = ⌊(2·num + den) / (2·den)⌋`. -/
def jsRound (q : JSNum) : Int :=
  Int.fdiv (2 * q.num + q.den) (2 * q.den)

/-- Character class of the coordinate regex `[\d.-]`. -/
def coordClass (c : Char) : Bool :=
  c.isDigit || c == '.' || c == '-'

/-- Try to match `Latitude, Longitude: ([\d.-]+), ([\d.-]+)` at the start
of the character list: the literal prefix, a non-empty maximal run of class
characters, the literal `", "`, and a second non-empty run.  (Because `','`
and `' '` are not in the class, the maximal run is the only candidate the
backtracking regex engine could accept at this position.) -/
def coordMatchAt (cs : List Char) : Option (String × String) :=
  let lit := "Latitude, Longitude: ".data
  if lit.isPrefixOf cs then
    let rest := cs.drop lit.length
    let g1 := rest.takeWhile coordClass
    if g1.isEmpty then none
    else
      let rest2 := rest.drop g1.length
      if (", ".data).isPrefixOf rest2 then
        let g2 := (rest2.drop 2).takeWhile coordClass
        if g2.isEmpty then none
        else some (String.mk g1, String.mk g2)
      else none
  else none

/-- Scan left to right for the first position where the coordinate pattern
matches (the semantics of `String#match` with an unanchored regex). -/
def coordSearch : List Char → Option (String × String)
  | [] => none
  | c :: rest =>
    match coordMatchAt (c :: rest) with
    | some r => some r
    | none => coordSearch rest

/-- `locationString.match(/Latitude, Longitude: ([\d.-]+), ([\d.-]+)/)`:
the two capture groups of the first match, if any. -/
def coordExtract (s : String) : Option (String × String) :=
  coordSearch s.data

/-- Numeric value of a digit run. -/
def digitsVal (l : List Char) : Nat :=
  l.foldl (fun acc c => acc * 10 + (c.toNat - 48)) 0

/-- JavaScript `parseFloat`: skip leading whitespace, optional sign, then
the longest prefix shaped `digits [. digits] [e|E [sign] digits]`; `NaN`
(`none`) when no digit is consumed.  The exact value
`sign · (int + frac/10^f) · 10^expo` is represented as an unnormalized
fraction with power-of-ten denominator; the program instead holds the
nearest binary64 double, which matters only at the half-way ties discussed
in the section header. -/
def jsParseFloat (s : String) : Option JSNum :=
  let cs := s.data.dropWhile Char.isWhitespace
  let signAndRest : Int × List Char :=
    match cs with
    | '-' :: r => (-1, r)
    | '+' :: r => (1, r)
    | _ => (1, cs)
  let sign := signAndRest.1
  let cs1 := signAndRest.2
  let intPart := cs1.takeWhile Char.isDigit
  let rest1 := cs1.drop intPart.length
  let fracAndRest : List Char × List Char :=
    match rest1 with
    | '.' :: r => (r.takeWhile Char.isDigit, r.drop (r.takeWhile Char.isDigit).length)
    | _ => ([], rest1)
  let fracPart := fracAndRest.1
  let rest2 := fracAndRest.2
  if intPart.isEmpty && fracPart.isEmpty then none
  else
    let expo : Int :=
      match rest2 with
      | e :: r =>
        if e == 'e' || e == 'E' then
          let esignAndRest : Int × List Char :=
            match r with
            | '-' :: rr => (-1, rr)
            | '+' :: rr => (1, rr)
            | _ => (1, r)
          let eds := esignAndRest.2.takeWhile Char.isDigit
          if eds.isEmpty then 0 else esignAndRest.1 * (digitsVal eds : Int)
        else 0
      | [] => 0
    let mantNum : Int :=
      sign * ((digitsVal intPart : Int) * (10 : Int) ^ fracPart.length
        + (digitsVal fracPart : Int))
    if 0 ≤ expo then
      some { num := mantNum * (10 : Int) ^ expo.toNat, den := 10 ^ fracPart.length }
    else
      some { num := mantNum, den := 10 ^ fracPart.length * 10 ^ (-expo).toNat }

/-- Shortest-decimal printing of the double `k / 100` (the value of
`Math.round(x*100)/100`) as performed by template interpolation: no trailing
fractional zeros, no sign on zero. -/
def decToString (k : Int) : String :=
  let m := k.natAbs
  let ip := m / 100
  let fp := m % 100
  (if k < 0 then "-" else "") ++ toString ip ++
    (if fp = 0 then ""
     else if fp % 10 = 0 then "." ++ toString (fp / 10)
     else "." ++ (if fp < 10 then "0" else "") ++ toString fp)

/-- One coordinate of `normalizeCoordinates`:
`Math.round(v*100)/100` interpolated into the key template; `NaN` prints as
"NaN". -/
def optRoundedString (x : Option JSNum) : String :=
  match x with
  | none => "NaN"
  | some q => decToString (jsRound (jsMul100 q))

/-- `normalizeCoordinates(lat, lon)`: the grouping key
`«roundedLat»,«roundedLon»`. -/
def roundedCoordString (lat lon : Option JSNum) : String :=
  optRoundedString lat ++ "," ++ optRoundedString lon

/-- `getNormalizedLocationKey` (app.js): empty/absent location → the fixed
unknown bucket; no coordinate pattern → the raw string verbatim; otherwise
the rounded-coordinate key. -/
def getNormalizedLocationKey (locationString : String) : String :=
  if locationString = "" then "Unknown location"
  else
    match coordExtract locationString with
    | none => locationString
    | some (a, b) => roundedCoordString (jsParseFloat a) (jsParseFloat b)

/-- `Number#toFixed(2)` for a non-negative value: nearest multiple of 0.01,
ties toward the larger value (`⌊q·100 + 1/2⌋`), printed with exactly two
fraction digits. -/
def fixed2Nonneg (q : JSNum) : String :=
  let m := (jsRound (jsMul100 q)).toNat
  toString (m / 100) ++ "." ++ (if m % 100 < 10 then "0" else "") ++ toString (m % 100)

/-- `v.toFixed(2)` with `NaN` printing as "NaN" (negative values delegate to
the non-negative case with a sign, per the ECMAScript algorithm). -/
def toFixed2 (x : Option JSNum) : String :=
  match x with
  | none => "NaN"
  | some q =>
    if q.num < 0 then "-" ++ fixed2Nonneg (jsAbs q) else fixed2Nonneg q

/-- `lat >= 0 ? 'N' : 'S'` — false for `NaN`. -/
def latDir (lat : Option JSNum) : String :=
  match lat with
  | some q => if 0 ≤ q.num then "N" else "S"
  | none => "S"

/-- `lon >= 0 ? 'E' : 'W'` — false for `NaN`. -/
def lonDir (lon : Option JSNum) : String :=
  match lon with
  | some q => if 0 ≤ q.num then "E" else "W"
  | none => "W"

/-- The formatted display string
`«abs lat to 2dp»°«N|S», «abs lon to 2dp»°«E|W»`. -/
def formatCoordDisplay (lat lon : Option JSNum) : String :=
  toFixed2 (lat.map jsAbs) ++ "°" ++ latDir lat ++ ", " ++
    toFixed2 (lon.map jsAbs) ++ "°" ++ lonDir lon

/-- The module-level `locationCache` object: an association list, most
recent binding first (bindings are only added on cache misses, so a
first-match lookup agrees with the object). -/
def cacheLookup (c : List (String × String)) (k : String) : Option String :=
  (c.find? (fun e => e.1 == k)).map (fun e => e.2)

/-- `getLocationName` (app.js), with the cache threaded explicitly: prefer a
truthy pre-resolved `locationName`; fall back through missing location and
missing coordinate pattern; otherwise serve from the memoization cache keyed
by the rounded pair (a falsy — empty — cached value recomputes), else format
and cache.  Returns the display string and the updated cache. -/
def getLocationName (m : Memory) (cache : List (String × String)) :
    String × List (String × String) :=
  match jsOrNull m.locationName with
  | some nm => (nm, cache)
  | none =>
    if m.location = "" then ("Unknown location", cache)
    else
      match coordExtract m.location with
      | none => (m.location, cache)
      | some (a, b) =>
        let lat := jsParseFloat a
        let lon := jsParseFloat b
        let coordKey := roundedCoordString lat lon
        match cacheLookup cache coordKey with
        | some v =>
          if v = "" then
            let f := formatCoordDisplay lat lon
            (f, (coordKey, f) :: cache)
          else (v, cache)
        | none =>
          let f := formatCoordDisplay lat lon
          (f, (coordKey, f) :: cache)


/-- Memory at rounded bucket (40.71, -74.01) for the C6 witness.  Both
witness coordinates are far from `.xx5` half-way ties, so binary64 and
exact rounding agree on their buckets. -/
def c6Mem1 : Memory :=
  { filename := "q1.json", date := "", mediaType := "Image"
    location := "Latitude, Longitude: 40.7128, -74.0060", locationName := none
    mediaFile := none, mediaUrl := none, mediaName := none }

/-- Memory at the same rounded bucket for the C6 witness. -/
def c6Mem2 : Memory :=
  { filename := "q2.json", date := "", mediaType := "Image"
    location := "Latitude, Longitude: 40.7129, -74.0061", locationName := none
    mediaFile := none, mediaUrl := none, mediaName := none }


/-! ## Place grouping (app.js `generatePlaces`) -/

/-- Append a memory to its key's group in an insertion-ordered association
list (`locationMap[key].push(memory)`, creating the key at the end on first
sight — string keys of a JS object enumerate in insertion order unless they
are array indices, handled below). -/
def insertGrouped (k : String) (m : Memory) :
    List (String × List Memory) → List (String × List Memory)
  | [] => [(k, [m])]
  | (k2, ms) :: rest =>
    if k2 = k then (k2, ms ++ [m]) :: rest else (k2, ms) :: insertGrouped k m rest

/-- The `locationMap` built by the grouping `forEach`. -/
def groupByKey (f : Memory → String) (l : List Memory) : List (String × List Memory) :=
  l.foldl (fun acc m => insertGrouped (f m) m acc) []

/-- Whether a string is a JavaScript array-index property key: the canonical
decimal representation of an integer in `[0, 2^32 - 1)`.  Such keys
enumerate before all other string keys, in ascending numeric order. -/
def isArrayIndexKey (s : String) : Bool :=
  let l := s.data
  !l.isEmpty && l.all Char.isDigit
    && (match l with
        | '0' :: rest => rest.isEmpty
        | _ => true)
    && decide (digitsVal l < 4294967295)

/-- `Object.keys` enumeration order for the string keys of `locationMap`:
array-index keys first in ascending numeric order, then the remaining keys
in insertion order. -/
def objKeys (keys : List String) : List String :=
  List.insertionSort (fun a b => digitsVal a.data ≤ digitsVal b.data)
      (keys.filter isArrayIndexKey)
    ++ keys.filter (fun k => !isArrayIndexKey k)

/-- The `SortCompare`-induced "may stay before" relation of the comparator
`(a, b) => locationMap[b].length - locationMap[a].length` (always a number,
never `NaN`). -/
def placeCntLE (lookup : String → List Memory) (a b : String) : Prop :=
  ((lookup b).length : Int) - ((lookup a).length : Int) ≤ 0

instance (lookup : String → List Memory) : DecidableRel (placeCntLE lookup) := fun a b =>
  inferInstanceAs
    (Decidable (((lookup b).length : Int) - ((lookup a).length : Int) ≤ 0))

/-- The render loop of `generatePlaces`: for each key in sorted order, emit
the group labelled by `getLocationName` of its first member, threading the
location cache.  (A key always maps to a non-empty group; the empty case is
unreachable.) -/
def renderPlaces (lookup : String → List Memory) :
    List (String × String) → List String →
      List (String × List Memory) × List (String × String)
  | cache, [] => ([], cache)
  | cache, k :: rest =>
    match lookup k with
    | [] => renderPlaces lookup cache rest
    | m0 :: ms =>
      let r1 := getLocationName m0 cache
      let r2 := renderPlaces lookup r1.2 rest
      ((r1.1, m0 :: ms) :: r2.1, r2.2)

/-- Lookup of `locationMap[k]` (`[]` for an absent key — unreachable for the
keys actually enumerated). -/
def mapLookup (locationMap : List (String × List Memory)) (k : String) : List Memory :=
  (((locationMap.find? (fun e => e.1 == k)).map Prod.snd).getD [])

/-- The keys of the place map in the order the render loop visits them:
`Object.keys(locationMap)` sorted by descending member count. -/
def placeSortedKeys (locationMap : List (String × List Memory)) : List String :=
  List.insertionSort (placeCntLE (mapLookup locationMap))
    (objKeys (locationMap.map Prod.fst))

/-- `generatePlaces` (app.js): group by the canonical location key, sort the
keys by descending member count, render each group with the display label of
its first member.  Returns the groups (label, members) and the updated
location cache. -/
def generatePlaces (l : List Memory) (cache : List (String × String)) :
    List (String × List Memory) × List (String × String) :=
  let locationMap := groupByKey (fun m => getNormalizedLocationKey m.location) l
  renderPlaces (mapLookup locationMap) cache (placeSortedKeys locationMap)

/-- First C8 counterexample memory: raw location "2" (an array-index-like
key, no coordinate pattern). -/
def c8MemA : Memory :=
  { filename := "a.json", date := "", mediaType := "Image", location := "2"
    locationName := none, mediaFile := none, mediaUrl := none, mediaName := none }

/-- Second C8 counterexample memory: raw location "1", encountered after
"2". -/
def c8MemB : Memory :=
  { filename := "b.json", date := "", mediaType := "Image", location := "1"
    locationName := none, mediaFile := none, mediaUrl := none, mediaName := none }

/-- The three coordinate memories of the C8 example. -/
def c8Mem1 : Memory :=
  { filename := "p1.json", date := "", mediaType := "Image"
    location := "Latitude, Longitude: 40.7128, -74.0060", locationName := none
    mediaFile := none, mediaUrl := none, mediaName := none }

/-- Second coordinate memory (same rounded bucket as the first). -/
def c8Mem2 : Memory :=
  { filename := "p2.json", date := "", mediaType := "Image"
    location := "Latitude, Longitude: 40.7129, -74.0061", locationName := none
    mediaFile := none, mediaUrl := none, mediaName := none }

/-- Third coordinate memory (a different bucket). -/
def c8Mem3 : Memory :=
  { filename := "p3.json", date := "", mediaType := "Image"
    location := "Latitude, Longitude: 34.0522, -118.2437", locationName := none
    mediaFile := none, mediaUrl := none, mediaName := none }


/-- Memory with non-index raw location key "x-loc" (C8 witness). -/
def c8MemX : Memory :=
  { filename := "x.json", date := "", mediaType := "Image", location := "x-loc"
    locationName := none, mediaFile := none, mediaUrl := none, mediaName := none }

/-- Memory with non-index raw location key "y-loc" (C8 witness). -/
def c8MemY : Memory :=
  { filename := "y.json", date := "", mediaType := "Image", location := "y-loc"
    locationName := none, mediaFile := none, mediaUrl := none, mediaName := none }


/-! ## Year/month grouping (app.js `generateYears`) -/

/-- `getFullYear()` / `getMonth()` of the parsed date: the host's local
calendar for a valid instant, `NaN` (modelled `none`) components for an
invalid one. -/
def yearMonthOf (host : Host) (m : Memory) : Option Int × Option (Fin 12) :=
  match parseMemoryDate host m.date with
  | some t => (some (host.calendar t).1, some (host.calendar t).2)
  | none => (none, none)

/-- Append a memory to its month group (`yearMap[year][monthKey].push`),
creating the month key at the end on first sight.  Month keys
`«index»-«name»` are never array-index strings (they contain a dash), so a
JS object enumerates them in insertion order; the key is determined by the
month index, so it is modelled by the index alone. -/
def insertMonth (mo : Option (Fin 12)) (m : Memory) :
    List (Option (Fin 12) × List Memory) → List (Option (Fin 12) × List Memory)
  | [] => [(mo, [m])]
  | (k, ms) :: rest =>
    if k = mo then (k, ms ++ [m]) :: rest else (k, ms) :: insertMonth mo m rest

/-- Insert a memory into the nested year → month map.  Year keys are the
strings `«year»` of `getFullYear()` (or "NaN"); since `String(«int»)` is
injective they are modelled by the year value itself. -/
def insertYear (y : Option Int) (mo : Option (Fin 12)) (m : Memory) :
    List (Option Int × List (Option (Fin 12) × List Memory)) →
      List (Option Int × List (Option (Fin 12) × List Memory))
  | [] => [(y, [(mo, [m])])]
  | (k, months) :: rest =>
    if k = y then (k, insertMonth mo m months) :: rest
    else (k, months) :: insertYear y mo m rest

/-- The `yearMap` built by the grouping `forEach`, in insertion order. -/
def yearMap (host : Host) (l : List Memory) :
    List (Option Int × List (Option (Fin 12) × List Memory)) :=
  l.foldl (fun acc m => insertYear (yearMonthOf host m).1 (yearMonthOf host m).2 m acc) []

/-- Whether the year key string `String(y)` is a JavaScript array-index
property key: a non-negative integer below `2^32 - 1` (its canonical decimal
string is canonical); the "NaN" key never is. -/
def isYearIndexKey : Option Int → Bool
  | some y => decide (0 ≤ y) && decide (y < 4294967295)
  | none => false

/-- `Object.keys(yearMap)` enumeration order: array-index year keys first in
ascending numeric order, then the rest in insertion order. -/
def objYearKeys (keys : List (Option Int)) : List (Option Int) :=
  List.insertionSort (fun a b => a.getD 0 ≤ b.getD 0) (keys.filter isYearIndexKey)
    ++ keys.filter (fun k => !isYearIndexKey k)

/-- `SortCompare` value of the year comparator `(a, b) => b - a` (key
strings coerce back to their numeric value, "NaN" to `NaN`, which
`SortCompare` collapses to `+0`). -/
def yearCmp (a b : Option Int) : Int :=
  match a, b with
  | some x, some y => y - x
  | _, _ => 0

/-- The "may stay before" relation of the year sort. -/
def yearLE (a b : Option Int) : Prop :=
  yearCmp a b ≤ 0

instance : DecidableRel yearLE := fun a b =>
  inferInstanceAs (Decidable (yearCmp a b ≤ 0))

/-- `SortCompare` value of the month comparator
`(a, b) => parseInt(b) - parseInt(a)` on month keys (`parseInt` of
"NaN-Invalid Date" is `NaN`, collapsed to `+0`). -/
def monthCmp (a b : Option (Fin 12)) : Int :=
  match a, b with
  | some x, some y => (y.val : Int) - (x.val : Int)
  | _, _ => 0

/-- The "may stay before" relation of the month sort. -/
def monthLE (a b : Option (Fin 12)) : Prop :=
  monthCmp a b ≤ 0

instance : DecidableRel monthLE := fun a b =>
  inferInstanceAs (Decidable (monthCmp a b ≤ 0))

/-- `toLocaleString('en-US', {month: 'long'})` month names. -/
def monthLongName (m : Fin 12) : String :=
  match m.val with
  | 0 => "January"
  | 1 => "February"
  | 2 => "March"
  | 3 => "April"
  | 4 => "May"
  | 5 => "June"
  | 6 => "July"
  | 7 => "August"
  | 8 => "September"
  | 9 => "October"
  | 10 => "November"
  | _ => "December"

/-- The month label shown in the header, `monthKey.split('-')[1]`: the long
month name, or "Invalid Date" (what `toLocaleString` prints for an invalid
date) for the `NaN` month bucket. -/
def monthDisplay : Option (Fin 12) → String
  | some m => monthLongName m
  | none => "Invalid Date"

/-- `yearMap[year]` lookup. -/
def lookupYear (ym : List (Option Int × List (Option (Fin 12) × List Memory)))
    (y : Option Int) : List (Option (Fin 12) × List Memory) :=
  ((ym.find? (fun e => e.1 == y)).map Prod.snd).getD []

/-- `yearMap[year][monthKey]` lookup. -/
def lookupMonth (months : List (Option (Fin 12) × List Memory))
    (mo : Option (Fin 12)) : List Memory :=
  ((months.find? (fun e => e.1 == mo)).map Prod.snd).getD []

/-- One rendered month subsection: its key, displayed name, displayed member
count, and members. -/
structure MonthGroup where
  month : Option (Fin 12)
  monthName : String
  count : Nat
  members : List Memory
deriving DecidableEq, Repr

/-- One rendered year section: its key, displayed total count
(`Object.values(yearMap[year])` summed), and month subsections. -/
structure YearGroup where
  year : Option Int
  total : Nat
  months : List MonthGroup
deriving DecidableEq, Repr

/-- `generateYears` (app.js): group by year and month, enumerate year keys
in object order sorted descending, and within each year render the month
groups sorted descending by month index. -/
def generateYears (host : Host) (l : List Memory) : List YearGroup :=
  let ym := yearMap host l
  (List.insertionSort yearLE (objYearKeys (ym.map Prod.fst))).map (fun y =>
    let months := lookupYear ym y
    { year := y
      total := (months.map (fun e => e.2.length)).sum
      months := (List.insertionSort monthLE (months.map Prod.fst)).map (fun mo =>
        { month := mo
          monthName := monthDisplay mo
          count := (lookupMonth months mo).length
          members := lookupMonth months mo }) })

/-- Host for the C7 example, parsing the three example timestamps with a
UTC-like local calendar. -/
def c7Host : Host :=
  { dateParse := fun s =>
      if s = "2024-03-01 00:00:00" then some 1709251200000
      else if s = "2024-03-15 00:00:00" then some 1710460800000
      else if s = "2023-12-25 00:00:00" then some 1703462400000
      else none
    calendar := fun t =>
      if t = 1709251200000 then (2024, 2)
      else if t = 1710460800000 then (2024, 2)
      else (2023, 11)
    readFileAsDataUrl := fun _ => none }

/-- A plain memory carrying only a date, for the C7 example. -/
def c7Mem (n d : String) : Memory :=
  { filename := n, date := d, mediaType := "Image", location := "Unknown location"
    locationName := none, mediaFile := none, mediaUrl := none, mediaName := none }

/-- The C7 example memories, dated 2024-03-01, 2024-03-15, 2023-12-25. -/
def c7Mems : List Memory :=
  [ c7Mem "a.json" "2024-03-01 00:00:00 UTC"
  , c7Mem "b.json" "2024-03-15 00:00:00 UTC"
  , c7Mem "c.json" "2023-12-25 00:00:00 UTC" ]

/-! ## Theorems -/

/-- C10: for every invalid instant — in particular the result of parsing
an empty date string, and the result of parsing any date string the host
cannot parse — the time-ago label function returns "Just now": the `NaN`
difference fails every duration-bucket comparison and the final fallback
branch is taken. -/
theorem c10_timeAgo_invalid_just_now (now : Int) (host : Host) (s : String) :
    getTimeAgo now (none : JSDate) = "Just now" ∧
    getTimeAgo now (parseMemoryDate host "") = "Just now" ∧
    (host.dateParse (jsTrim (replaceFirst s " UTC" "")) = none →
      getTimeAgo now (parseMemoryDate host s) = "Just now") := by
  refine ⟨rfl, rfl, fun h => ?_⟩
  unfold parseMemoryDate
  by_cases hs : s = ""
  · simp [hs, getTimeAgo]
  · simp [hs, h, getTimeAgo]

/-- Witness for C10 at a concrete host and string. -/
theorem c10_timeAgo_invalid_just_now_witness :
    getTimeAgo 0 (parseMemoryDate ⟨fun _ => none, fun _ => (0, 0), fun _ => none⟩
      "not a date UTC") = "Just now" :=
  (c10_timeAgo_invalid_just_now 0 ⟨fun _ => none, fun _ => (0, 0), fun _ => none⟩
    "not a date UTC").2.2 rfl

/-! ## Claim C1: catalog order after ingest -/

/-- Inserting into a sorted list stays sorted, assuming totality and
transitivity of `r` only on elements satisfying `P` (the global relation
`memLE` is not transitive because of the `NaN ↦ +0` collapse, but it is on
memories with valid dates). -/
theorem sorted_orderedInsert_of {α : Type} (r : α → α → Prop) [DecidableRel r] (P : α → Prop)
    (htot : ∀ a b, P a → P b → r a b ∨ r b a)
    (htrans : ∀ a b c, P a → P b → P c → r a b → r b c → r a c) :
    ∀ (l : List α) (a : α), P a → (∀ x ∈ l, P x) → l.Sorted r →
      (List.orderedInsert r a l).Sorted r
  | [], a, _, _, _ => List.sorted_singleton a
  | b :: t, a, hPa, hPl, hs => by
    rw [List.orderedInsert]
    by_cases hab : r a b
    · rw [if_pos hab]
      refine List.sorted_cons.2 ⟨?_, hs⟩
      intro x hx
      rcases List.mem_cons.1 hx with h | h
      · exact h ▸ hab
      · exact htrans a b x hPa (hPl b (List.mem_cons_self b t))
          (hPl x (List.mem_cons_of_mem b h)) hab ((List.sorted_cons.1 hs).1 x h)
    · rw [if_neg hab]
      have hPt : ∀ x ∈ t, P x := fun x hx => hPl x (List.mem_cons_of_mem b hx)
      have ht : t.Sorted r := (List.sorted_cons.1 hs).2
      refine List.sorted_cons.2
        ⟨?_, sorted_orderedInsert_of r P htot htrans t a hPa hPt ht⟩
      intro x hx
      rcases (List.mem_orderedInsert r).1 hx with h | h
      · rw [h]
        exact (htot a b hPa (hPl b (List.mem_cons_self b t))).resolve_left hab
      · exact (List.sorted_cons.1 hs).1 x h

/-- Insertion sort sorts, assuming totality and transitivity of `r` only on
elements satisfying `P` when all list elements satisfy `P`. -/
theorem sorted_insertionSort_of {α : Type} (r : α → α → Prop) [DecidableRel r] (P : α → Prop)
    (htot : ∀ a b, P a → P b → r a b ∨ r b a)
    (htrans : ∀ a b c, P a → P b → P c → r a b → r b c → r a c) :
    ∀ l : List α, (∀ x ∈ l, P x) → (List.insertionSort r l).Sorted r
  | [], _ => List.sorted_nil
  | a :: t, hP => by
    rw [List.insertionSort]
    have hPt : ∀ x ∈ t, P x := fun x hx => hP x (List.mem_cons_of_mem a hx)
    have hmem : ∀ x ∈ List.insertionSort r t, P x := fun x hx =>
      hPt x ((List.perm_insertionSort r t).subset hx)
    exact sorted_orderedInsert_of r P htot htrans _ a (hP a (List.mem_cons_self a t))
      hmem (sorted_insertionSort_of r P htot htrans t hPt)

/-- Counterexample to C1 as stated: after ingesting `c1Files`, the memory
whose date string is empty (parsing to an invalid instant) appears *before*
the memory with a valid instant — the comparator `dateB - dateA` evaluates to
`NaN` on that pair, the `SortCompare` operation turns `NaN` into `+0`, and a
stable sort therefore leaves the pair in ingestion order.  So it is false
that every invalid-date memory appears after every valid-date memory. -/
theorem c1_counterexample :
    (processFiles c1Host c1Files).map Memory.date = ["", "2024-01-01 00:00:00 UTC"] ∧
    parseMemoryDate c1Host "" = none ∧
    parseMemoryDate c1Host "2024-01-01 00:00:00 UTC" = some 1704067200000 := by
  exact ⟨by decide, rfl, by decide⟩

/-- C1 (amended): after ingest the catalog is a permutation of the built
memory list, and it is sorted descending by `parsedInstant` *provided every
ingested memory's date string parses to a valid instant*.  (As stated the
claim is false: a memory whose date is empty or unparsable compares as equal
to every other memory — `NaN` is collapsed to `+0` by `SortCompare` — so it
keeps its ingestion-relative position instead of sorting after the valid
ones; see the counterexample.) -/
theorem c1_sorted_descending_of_all_valid (host : Host) (files : List FileEntry)
    (hvalid : ∀ m ∈ ingestRaw host files, (parseMemoryDate host m.date).isSome = true) :
    (processFiles host files).Pairwise
      (fun a b => (parseMemoryDate host b.date).getD 0 ≤ (parseMemoryDate host a.date).getD 0)
      ∧ List.Perm (processFiles host files) (ingestRaw host files) := by
  have hperm : List.Perm (processFiles host files) (ingestRaw host files) :=
    List.perm_insertionSort (memLE host) (ingestRaw host files)
  refine ⟨?_, hperm⟩
  have htot : ∀ a b : Memory, (parseMemoryDate host a.date).isSome = true →
      (parseMemoryDate host b.date).isSome = true → memLE host a b ∨ memLE host b a := by
    intro a b ha hb
    rcases Option.isSome_iff_exists.1 ha with ⟨x, hx⟩
    rcases Option.isSome_iff_exists.1 hb with ⟨y, hy⟩
    unfold memLE memCmp
    rw [hx, hy]
    dsimp only
    omega
  have htrans : ∀ a b c : Memory, (parseMemoryDate host a.date).isSome = true →
      (parseMemoryDate host b.date).isSome = true →
      (parseMemoryDate host c.date).isSome = true →
      memLE host a b → memLE host b c → memLE host a c := by
    intro a b c ha hb hc h1 h2
    rcases Option.isSome_iff_exists.1 ha with ⟨x, hx⟩
    rcases Option.isSome_iff_exists.1 hb with ⟨y, hy⟩
    rcases Option.isSome_iff_exists.1 hc with ⟨z, hz⟩
    unfold memLE memCmp at h1 h2 ⊢
    rw [hx, hy] at h1
    rw [hy, hz] at h2
    rw [hx, hz]
    dsimp only at h1 h2 ⊢
    omega
  have hs : (processFiles host files).Sorted (memLE host) :=
    sorted_insertionSort_of (memLE host)
      (fun m => (parseMemoryDate host m.date).isSome = true) htot htrans
      (ingestRaw host files) hvalid
  refine List.Pairwise.imp_of_mem ?_ hs
  intro a b ha hb hab
  rcases Option.isSome_iff_exists.1 (hvalid a (hperm.subset ha)) with ⟨x, hx⟩
  rcases Option.isSome_iff_exists.1 (hvalid b (hperm.subset hb)) with ⟨y, hy⟩
  unfold memLE memCmp at hab
  rw [hx, hy] at hab
  rw [hx, hy]
  dsimp only at hab
  simp only [Option.getD_some]
  omega

/-- Witness for the amended C1 theorem at a concrete all-valid input. -/
theorem c1_sorted_descending_of_all_valid_witness :
    (processFiles c1WitnessHost c1WitnessFiles).Pairwise
      (fun a b => (parseMemoryDate c1WitnessHost b.date).getD 0 ≤
        (parseMemoryDate c1WitnessHost a.date).getD 0)
      ∧ List.Perm (processFiles c1WitnessHost c1WitnessFiles) (ingestRaw c1WitnessHost c1WitnessFiles) :=
  c1_sorted_descending_of_all_valid c1WitnessHost c1WitnessFiles (by decide)

/-! ## Claims C2, C3, C4 -/

/-- Characterization of first-success search: `findSome?` returns the result
of the scanned function at the *first* list element where it succeeds. -/
theorem findSome?_eq_bind_find? {α β : Type} (f : α → Option β) :
    ∀ l : List α, l.findSome? f = (l.find? (fun a => (f a).isSome)).bind f
  | [] => rfl
  | a :: t => by
    cases h : f a with
    | some b => simp [List.findSome?_cons, List.find?_cons, h]
    | none => simp [List.findSome?_cons, List.find?_cons, h, findSome?_eq_bind_find? f t]

/-- Structural invariants of every memory built by the ingestion loop:
`mediaName` mirrors the matched file's name, `mediaFile` and `mediaName` are
present together, and a displayable handle only exists for a matched file. -/
theorem ingestRaw_media_invariant (host : Host) (files : List FileEntry) :
    ∀ m ∈ ingestRaw host files,
      m.mediaName = m.mediaFile.bind MediaRef.name
      ∧ m.mediaFile.isSome = m.mediaName.isSome
      ∧ (m.mediaUrl.isSome = true → m.mediaFile.isSome = true) := by
  intro m hm
  rcases List.mem_filterMap.1 hm with ⟨f, _, hmap⟩
  rcases Option.map_eq_some'.1 hmap with ⟨data, _, hbuild⟩
  subst hbuild
  unfold buildMemory
  cases hfound : matchMedia files (stemOf f.name) with
  | none => simp [hfound]
  | some g => simp [hfound, Option.bind]

/-- C2 counterexample: when the media-loading collaborator fails, ingestion
still records the matched media asset (`mediaFile`/`mediaName` present) but
no renderable handle (`mediaUrl` null) — so the two are *not* always both
absent or both present. -/
theorem c2_counterexample :
    (processFiles c2Host c2Files).map (fun m => (m.mediaName, m.mediaFile.isSome, m.mediaUrl))
      = [(some "a.jpg", true, none)] := by
  decide

/-- C2 (amended): the one-directional invariant that does hold for every
memory produced by ingestion or rehydration: a renderable handle is only
ever present when a matched media asset reference is present (and, for
ingestion, `mediaFile` and `mediaName` are present together); a load failure
leaves the asset reference without a handle. -/
theorem c2_url_implies_asset (host : Host) (files : List FileEntry)
    (records : List PersistedRecord) :
    ((processFiles host files).all
        (fun m => !m.mediaUrl.isSome || (m.mediaFile.isSome && m.mediaName.isSome))) = true
    ∧ ((loadMemoriesData host records).all
        (fun m => !m.mediaUrl.isSome || m.mediaFile.isSome)) = true := by
  constructor
  · rw [List.all_eq_true]
    intro m hm
    have hm' : m ∈ ingestRaw host files :=
      (List.perm_insertionSort (memLE host) (ingestRaw host files)).subset hm
    rcases ingestRaw_media_invariant host files m hm' with ⟨_, hiff, hurl⟩
    cases hu : m.mediaUrl.isSome with
    | false => simp
    | true => simp [hurl hu, hiff ▸ hurl hu]
  · rw [List.all_eq_true]
    intro m hm
    rcases List.mem_map.1 hm with ⟨r, _, hr⟩
    subst hr
    unfold rehydrate
    cases hp : r.mediaPath with
    | none => simp
    | some p =>
      by_cases hpe : p = "" <;> simp [hp, hpe]

/-- C3 counterexample: a matched media asset whose filesystem path is the
empty string survives ingestion (`mediaFile` present) but is dropped by the
persistence round trip — `mediaPath` is persisted as `""`, which
`loadMemoriesData`'s `if (m.mediaPath)` treats as absent — so the
media-asset fields are not field-for-field equal after rehydration. -/
theorem c3_counterexample :
    ((processFiles c3Host c3Files).map (fun m => m.mediaFile)
        = [some { name := some "a.jpg", path := "" }])
    ∧ ((loadMemoriesData c3Host (saveMemoriesData (processFiles c3Host c3Files))).map
        (fun m => m.mediaFile) = [none]) := by
  exact ⟨by decide, by decide⟩

/-- C3 (amended): for every catalog produced by ingestion *in which every
matched media asset has a non-empty path* (the empty string is conflated
with "no path" by the persistence encoding, see the counterexample),
persisting and rehydrating — under any host for the two sessions — yields a
catalog whose stable metadata fields (filename, date, mediaType, location,
locationName, mediaName, and the media asset's name/path) are field-for-field
equal to the original; only the transient `mediaUrl` handle is excluded. -/
theorem c3_roundtrip_preserves_metadata (host host2 : Host) (files : List FileEntry)
    (hpath : ∀ m ∈ processFiles host files, ∀ mf, m.mediaFile = some mf → ¬ mf.path = "") :
    (loadMemoriesData host2 (saveMemoriesData (processFiles host files))).map metadataFields
      = (processFiles host files).map metadataFields := by
  unfold loadMemoriesData saveMemoriesData
  rw [List.map_map, List.map_map]
  apply List.map_congr_left
  intro m hm
  have hm' : m ∈ ingestRaw host files :=
    (List.perm_insertionSort (memLE host) (ingestRaw host files)).subset hm
  have hinv := (ingestRaw_media_invariant host files m hm').1
  cases hmf : m.mediaFile with
  | none => simp [Function.comp, rehydrate, toPersistable, metadataFields, hmf]
  | some mf =>
    have hne : ¬ mf.path = "" := hpath m hm mf hmf
    have hname : m.mediaName = mf.name := by rw [hinv, hmf]; rfl
    simp [Function.comp, rehydrate, toPersistable, metadataFields, hmf, hne, hname]

/-- Witness for the amended C3 theorem at a concrete catalog with one
matched and one unmatched memory. -/
theorem c3_roundtrip_preserves_metadata_witness :
    (loadMemoriesData c3WitnessHost
        (saveMemoriesData (processFiles c3WitnessHost c3WitnessFiles))).map metadataFields
      = (processFiles c3WitnessHost c3WitnessFiles).map metadataFields :=
  c3_roundtrip_preserves_metadata c3WitnessHost c3WitnessHost c3WitnessFiles (by decide)

/-- C4: the media matcher scans the fixed ordered extension list
`[.jpg, .jpeg, .png, .gif, .mp4, .mov, .webm]` (image formats before video
formats) and picks the file at the *first* extension with a sibling of the
same stem — equivalently, its result is the lookup at `find?` of that list;
in particular, ingesting `trip.json` with siblings `trip.jpg` and `trip.mp4`
matches `trip.jpg`. -/
theorem c4_first_extension_wins (files : List FileEntry) :
    (∀ stem, matchMedia files stem =
      (mediaExtensions.find? (fun ext => (fileLookup files (stem ++ ext)).isSome)).bind
        (fun ext => fileLookup files (stem ++ ext)))
    ∧ (processFiles c4Host c4Files).map Memory.mediaName = [some "trip.jpg"] := by
  exact ⟨fun stem => findSome?_eq_bind_find? _ _, by decide⟩

/-! ## Claim C5: flashback sampling -/

/-- Removing the element at a valid index and re-consing it permutes the
list. -/
theorem getElem_cons_eraseIdx_perm {α : Type} :
    ∀ (l : List α) (i : Nat) (h : i < l.length),
      List.Perm (l.get ⟨i, h⟩ :: l.eraseIdx i) l
  | _ :: _, 0, _ => List.Perm.refl _
  | a :: t, i + 1, h => by
    have hi : i < t.length := by simpa using h
    have h0 : (a :: t).get ⟨i + 1, h⟩ :: (a :: t).eraseIdx (i + 1)
        = t.get ⟨i, hi⟩ :: a :: t.eraseIdx i := rfl
    have h1 : List.Perm (t.get ⟨i, hi⟩ :: a :: t.eraseIdx i)
        (a :: t.get ⟨i, hi⟩ :: t.eraseIdx i) := List.Perm.swap _ _ _
    have h2 : List.Perm (a :: t.get ⟨i, hi⟩ :: t.eraseIdx i) (a :: t) :=
      List.Perm.cons a (getElem_cons_eraseIdx_perm t i hi)
    rw [h0]
    exact h1.trans h2

/-- Core property of the sampling loop: as long as at least `k` elements
remain, it returns a length-`k` sub-permutation (a selection without
replacement). -/
theorem sampleAux_subperm_length {α : Type} (rand : Nat → Nat → Nat)
    (hrand : ∀ i n, 0 < n → rand i n < n) :
    ∀ (k i : Nat) (l : List α), k ≤ l.length →
      (sampleAux rand k i l).Subperm l ∧ (sampleAux rand k i l).length = k
  | 0, _, l, _ => ⟨List.nil_subperm, rfl⟩
  | k + 1, i, l, hk => by
    have hpos : 0 < l.length := Nat.lt_of_lt_of_le (Nat.succ_pos k) hk
    have hidx : rand i l.length < l.length := hrand i l.length hpos
    have hget : l[rand i l.length]? = some (l.get ⟨rand i l.length, hidx⟩) := by
      rw [List.getElem?_eq_getElem hidx]
      rfl
    have hlen1 : (l.eraseIdx (rand i l.length)).length + 1 = l.length :=
      List.length_eraseIdx_add_one hidx
    have hk2 : k ≤ (l.eraseIdx (rand i l.length)).length := by omega
    obtain ⟨hsub, hlen2⟩ :=
      sampleAux_subperm_length rand hrand k (i + 1) (l.eraseIdx (rand i l.length)) hk2
    have heq : sampleAux rand (k + 1) i l =
        l.get ⟨rand i l.length, hidx⟩ ::
          sampleAux rand k (i + 1) (l.eraseIdx (rand i l.length)) := by
      rw [sampleAux, hget]
    rw [heq]
    constructor
    · have h1 := (List.subperm_cons (l.get ⟨rand i l.length, hidx⟩)).2 hsub
      exact ((getElem_cons_eraseIdx_perm l (rand i l.length) hidx).subperm_left).1 h1
    · simpa using hlen2

/-- C5: for every catalog, flashback selection with any in-range random
source returns `min 4 n` memories drawn without replacement (a
sub-permutation of the catalog); consequently a catalog with no duplicate
entries yields pairwise-distinct picks, and a catalog of at most 4 memories
(e.g. 2) yields exactly the whole catalog, in some order. -/
theorem c5_flashbacks_without_replacement {α : Type} (rand : Nat → Nat → Nat)
    (hrand : ∀ i n, 0 < n → rand i n < n) (l : List α) :
    (generateFlashbacks rand l).Subperm l
    ∧ (generateFlashbacks rand l).length = min 4 l.length
    ∧ (l.Nodup → (generateFlashbacks rand l).Nodup)
    ∧ (l.length ≤ 4 → List.Perm (generateFlashbacks rand l) l) := by
  obtain ⟨hsub, hlen⟩ :=
    sampleAux_subperm_length rand hrand (min 4 l.length) 0 l (Nat.min_le_right 4 l.length)
  refine ⟨hsub, hlen, fun hnd => ?_, fun hle => ?_⟩
  · obtain ⟨l2, hp, hsl⟩ := hsub
    exact hp.nodup_iff.1 (hnd.sublist hsl)
  · refine hsub.perm_of_length_le ?_
    omega

/-- Witness for C5 with the always-first random source on a 3-element
catalog. -/
theorem c5_flashbacks_without_replacement_witness :
    (generateFlashbacks (fun _ _ => 0) [0, 1, 2]).Subperm [0, 1, 2]
    ∧ (generateFlashbacks (fun _ _ => 0) [0, 1, 2]).length = min 4 ([0, 1, 2] : List Nat).length
    ∧ (([0, 1, 2] : List Nat).Nodup → (generateFlashbacks (fun _ _ => 0) [0, 1, 2]).Nodup)
    ∧ (([0, 1, 2] : List Nat).length ≤ 4 →
        List.Perm (generateFlashbacks (fun _ _ => 0) [0, 1, 2]) [0, 1, 2]) :=
  c5_flashbacks_without_replacement (fun _ _ => 0) (fun _ _ h => h) [0, 1, 2]

/-! ## Claim C9: navigation cursor -/

/-- C9: for every open cursor (non-negative index), `next()` increments the
index by exactly 1 when it is below `length - 1` and is a no-op otherwise,
`previous()` decrements when the index is above 0 and is a no-op otherwise,
neither touches the list, and the `hasNext`/`hasPrevious` affordance
conditions are `index < length - 1` and `index > 0`; on the 5-item example
opened at index 2 both hold, two `next()` calls reach index 4 where
`hasNext` is false and a further `next()` changes nothing. -/
theorem c9_navigation_cursor (s : NavState) (h : 0 ≤ s.currentMemoryIndex) :
    ((navigateToNextMemory s).currentMemoryList = s.currentMemoryList
      ∧ (navigateToNextMemory s).currentMemoryIndex =
          (if s.currentMemoryIndex < (s.currentMemoryList.length : Int) - 1
            then s.currentMemoryIndex + 1 else s.currentMemoryIndex)
      ∧ (navigateToPreviousMemory s).currentMemoryList = s.currentMemoryList
      ∧ (navigateToPreviousMemory s).currentMemoryIndex =
          (if 0 < s.currentMemoryIndex
            then s.currentMemoryIndex - 1 else s.currentMemoryIndex)
      ∧ hasNext s = decide (s.currentMemoryIndex < (s.currentMemoryList.length : Int) - 1)
      ∧ hasPrevious s = decide (0 < s.currentMemoryIndex))
    ∧ (hasNext c9Cursor = true ∧ hasPrevious c9Cursor = true
      ∧ (navigateToNextMemory (navigateToNextMemory c9Cursor)).currentMemoryIndex = 4
      ∧ hasNext (navigateToNextMemory (navigateToNextMemory c9Cursor)) = false
      ∧ navigateToNextMemory (navigateToNextMemory (navigateToNextMemory c9Cursor))
          = navigateToNextMemory (navigateToNextMemory c9Cursor)) := by
  constructor
  · unfold navigateToNextMemory navigateToPreviousMemory openModalNav hasNext hasPrevious
    by_cases hn : s.currentMemoryIndex < (s.currentMemoryList.length : Int) - 1 <;>
      by_cases hp : 0 < s.currentMemoryIndex <;>
      simp [hn, hp] <;> omega
  · exact ⟨by decide, by decide, by decide, by decide, by decide⟩

/-- Witness for C9 at the example cursor. -/
theorem c9_navigation_cursor_witness :
    ((navigateToNextMemory c9Cursor).currentMemoryList = c9Cursor.currentMemoryList
      ∧ (navigateToNextMemory c9Cursor).currentMemoryIndex =
          (if c9Cursor.currentMemoryIndex < (c9Cursor.currentMemoryList.length : Int) - 1
            then c9Cursor.currentMemoryIndex + 1 else c9Cursor.currentMemoryIndex)
      ∧ (navigateToPreviousMemory c9Cursor).currentMemoryList = c9Cursor.currentMemoryList
      ∧ (navigateToPreviousMemory c9Cursor).currentMemoryIndex =
          (if 0 < c9Cursor.currentMemoryIndex
            then c9Cursor.currentMemoryIndex - 1 else c9Cursor.currentMemoryIndex)
      ∧ hasNext c9Cursor =
          decide (c9Cursor.currentMemoryIndex < (c9Cursor.currentMemoryList.length : Int) - 1)
      ∧ hasPrevious c9Cursor = decide (0 < c9Cursor.currentMemoryIndex))
    ∧ (hasNext c9Cursor = true ∧ hasPrevious c9Cursor = true
      ∧ (navigateToNextMemory (navigateToNextMemory c9Cursor)).currentMemoryIndex = 4
      ∧ hasNext (navigateToNextMemory (navigateToNextMemory c9Cursor)) = false
      ∧ navigateToNextMemory (navigateToNextMemory (navigateToNextMemory c9Cursor))
          = navigateToNextMemory (navigateToNextMemory c9Cursor)) :=
  c9_navigation_cursor c9Cursor (by decide)

/-! ## Claim C6: location canonicalization, display, and memoization -/

/-- A string append with non-empty right component is non-empty. -/
theorem append_ne_empty_right {a b : String} (h : b ≠ "") : a ++ b ≠ "" := by
  intro he
  apply h
  have hd := congrArg String.data he
  rw [String.data_append] at hd
  exact String.ext (List.append_eq_nil.1 hd).2

/-- The formatted coordinate display string is never empty (it ends in a
direction letter), hence never falsy as a cached value. -/
theorem formatCoordDisplay_ne_empty (lat lon : Option JSNum) :
    formatCoordDisplay lat lon ≠ "" := by
  unfold formatCoordDisplay
  apply append_ne_empty_right
  unfold lonDir
  cases lon with
  | none => decide
  | some q =>
    by_cases h : 0 ≤ q.num <;> simp [h]

/-- A freshly added cache binding is found first. -/
theorem cacheLookup_cons_self (k v : String) (c : List (String × String)) :
    cacheLookup ((k, v) :: c) k = some v := by
  simp [cacheLookup, List.find?]

/-- A string matching the coordinate pattern is non-empty. -/
theorem coordExtract_ne_of_some {s : String} {r : String × String}
    (h : coordExtract s = some r) : s ≠ "" := by
  intro he
  rw [he] at h
  exact Option.noConfusion ((rfl : coordExtract "" = none) ▸ h)

/-- Evaluation of `getLocationName` on the coordinate path (no pre-resolved
name, coordinate pattern present): serve a truthy cached value for the
rounded key, otherwise format and cache. -/
theorem getLocationName_coord (m : Memory) (c : List (String × String)) (a b : String)
    (hn : jsOrNull m.locationName = none)
    (hc : coordExtract m.location = some (a, b)) :
    getLocationName m c =
      (match cacheLookup c (roundedCoordString (jsParseFloat a) (jsParseFloat b)) with
       | some v =>
         if v = "" then
           (formatCoordDisplay (jsParseFloat a) (jsParseFloat b),
             (roundedCoordString (jsParseFloat a) (jsParseFloat b),
               formatCoordDisplay (jsParseFloat a) (jsParseFloat b)) :: c)
         else (v, c)
       | none =>
         (formatCoordDisplay (jsParseFloat a) (jsParseFloat b),
           (roundedCoordString (jsParseFloat a) (jsParseFloat b),
             formatCoordDisplay (jsParseFloat a) (jsParseFloat b)) :: c)) := by
  have hne : m.location ≠ "" := coordExtract_ne_of_some hc
  unfold getLocationName
  rw [hn]
  dsimp only
  rw [if_neg hne, hc]

/-- C6: for any two raw location strings (with no pre-resolved name) whose
extracted latitude/longitude pairs round to the same 2-decimal values,
`getNormalizedLocationKey` returns the same grouping key and sequential
`getLocationName` calls return the same display string (the second served
from the memoization cache); moreover `getLocationName` is idempotent in the
strong sense that a repeated call returns the same string and leaves the
cache untouched (a cache hit performs no new computation).  The rounding
hypotheses are stated in the exact-rational model; they coincide with the
program's binary64 rounding away from `.xx5` half-way ties (see the section
header), and the witness coordinates are such inputs. -/
theorem c6_location_resolver
    (m1 m2 : Memory) (c0 : List (String × String))
    (a1 b1 a2 b2 : String) (la1 lo1 la2 lo2 : JSNum)
    (hn1 : jsOrNull m1.locationName = none) (hn2 : jsOrNull m2.locationName = none)
    (h1 : coordExtract m1.location = some (a1, b1))
    (h2 : coordExtract m2.location = some (a2, b2))
    (hp1 : jsParseFloat a1 = some la1) (hq1 : jsParseFloat b1 = some lo1)
    (hp2 : jsParseFloat a2 = some la2) (hq2 : jsParseFloat b2 = some lo2)
    (hlat : jsRound (jsMul100 la1) = jsRound (jsMul100 la2))
    (hlon : jsRound (jsMul100 lo1) = jsRound (jsMul100 lo2)) :
    getNormalizedLocationKey m1.location = getNormalizedLocationKey m2.location
    ∧ (getLocationName m2 (getLocationName m1 c0).2).1 = (getLocationName m1 c0).1
    ∧ (∀ (m : Memory) (c : List (String × String)),
        getLocationName m (getLocationName m c).2 = getLocationName m c) := by
  have hne1 : m1.location ≠ "" := coordExtract_ne_of_some h1
  have hne2 : m2.location ≠ "" := coordExtract_ne_of_some h2
  have hkeyeq : roundedCoordString (jsParseFloat a2) (jsParseFloat b2)
      = roundedCoordString (jsParseFloat a1) (jsParseFloat b1) := by
    rw [hp1, hp2, hq1, hq2]
    unfold roundedCoordString optRoundedString
    dsimp only
    rw [hlat, hlon]
  refine ⟨?_, ?_, ?_⟩
  · unfold getNormalizedLocationKey
    rw [if_neg hne1, if_neg hne2, h1, h2]
    exact hkeyeq.symm
  · rw [getLocationName_coord m1 c0 a1 b1 hn1 h1, getLocationName_coord m2 _ a2 b2 hn2 h2,
      hkeyeq]
    cases hl : cacheLookup c0 (roundedCoordString (jsParseFloat a1) (jsParseFloat b1)) with
    | none =>
      dsimp only
      rw [cacheLookup_cons_self]
      dsimp only
      rw [if_neg (formatCoordDisplay_ne_empty _ _)]
    | some v =>
      by_cases hv : v = ""
      · dsimp only
        rw [if_pos hv]
        dsimp only
        rw [cacheLookup_cons_self]
        dsimp only
        rw [if_neg (formatCoordDisplay_ne_empty _ _)]
      · dsimp only
        rw [if_neg hv]
        dsimp only
        rw [hl]
        dsimp only
        rw [if_neg hv]
  · intro m c
    cases hname : jsOrNull m.locationName with
    | some nm => simp [getLocationName, hname]
    | none =>
      by_cases hloc : m.location = ""
      · simp [getLocationName, hname, hloc]
      · cases hext : coordExtract m.location with
        | none => simp [getLocationName, hname, hloc, hext]
        | some ab =>
          obtain ⟨a, b⟩ := ab
          rw [getLocationName_coord m c a b hname hext]
          cases hl : cacheLookup c (roundedCoordString (jsParseFloat a) (jsParseFloat b)) with
          | none =>
            dsimp only
            rw [getLocationName_coord m _ a b hname hext, cacheLookup_cons_self]
            dsimp only
            rw [if_neg (formatCoordDisplay_ne_empty _ _)]
          | some v =>
            by_cases hv : v = ""
            · dsimp only
              rw [if_pos hv]
              dsimp only
              rw [getLocationName_coord m _ a b hname hext, cacheLookup_cons_self]
              dsimp only
              rw [if_neg (formatCoordDisplay_ne_empty _ _)]
            · dsimp only
              rw [if_neg hv]
              dsimp only
              rw [getLocationName_coord m c a b hname hext, hl]
              dsimp only
              rw [if_neg hv]

/-- Witness for C6 at bucket (40.71, -74.01): "40.7128"/"-74.0060" versus
"40.7129"/"-74.0061".  In binary64 as in the exact model,
`Math.round(40.7128 * 100) = Math.round(40.7129 * 100) = 4071` and
`Math.round(-74.0060 * 100) = Math.round(-74.0061 * 100) = -7401`, so the
program performs this very grouping. -/
theorem c6_location_resolver_witness :
    getNormalizedLocationKey c6Mem1.location = getNormalizedLocationKey c6Mem2.location
    ∧ (getLocationName c6Mem2 (getLocationName c6Mem1 []).2).1 = (getLocationName c6Mem1 []).1
    ∧ (∀ (m : Memory) (c : List (String × String)),
        getLocationName m (getLocationName m c).2 = getLocationName m c) :=
  c6_location_resolver c6Mem1 c6Mem2 [] "40.7128" "-74.0060" "40.7129" "-74.0061"
    { num := 407128, den := 10000 } { num := -740060, den := 10000 }
    { num := 407129, den := 10000 } { num := -740061, den := 10000 }
    rfl rfl (by decide) (by decide) (by decide) (by decide) (by decide) (by decide)
    (by decide) (by decide)

/-! ## Claim C8: place grouping -/

/-- Keys of the grouping map after one insertion: unchanged for a seen key,
appended otherwise. -/
theorem insertGrouped_keys (k : String) (m : Memory) :
    ∀ acc : List (String × List Memory),
      (insertGrouped k m acc).map Prod.fst =
        (if k ∈ acc.map Prod.fst then acc.map Prod.fst else acc.map Prod.fst ++ [k])
  | [] => by simp [insertGrouped]
  | (k2, ms) :: rest => by
    by_cases h : k2 = k
    · simp [insertGrouped, h]
    · have hik := insertGrouped_keys k m rest
      by_cases h2 : k ∈ rest.map Prod.fst <;>
        simp [insertGrouped, h, Ne.symm h, h2, hik]

/-- One insertion adds exactly the inserted memory to the flattened
contents. -/
theorem insertGrouped_flatten_perm (k : String) (m : Memory) :
    ∀ acc : List (String × List Memory),
      List.Perm ((insertGrouped k m acc).map Prod.snd).flatten
        (m :: (acc.map Prod.snd).flatten)
  | [] => by simp [insertGrouped]
  | (k2, ms) :: rest => by
    by_cases h : k2 = k
    · simp only [insertGrouped, if_pos h, List.map_cons, List.flatten_cons]
      have hpm : List.Perm (ms ++ m :: (rest.map Prod.snd).flatten)
          (m :: (ms ++ (rest.map Prod.snd).flatten)) := List.perm_middle
      simp only [List.flatten_cons, List.append_assoc, List.singleton_append]
      exact hpm
    · simp only [insertGrouped, if_neg h, List.map_cons, List.flatten_cons]
      have ih := insertGrouped_flatten_perm k m rest
      calc ms ++ ((insertGrouped k m rest).map Prod.snd).flatten
          ≈ ms ++ m :: (rest.map Prod.snd).flatten := List.Perm.append_left ms ih
        _ ≈ m :: (ms ++ (rest.map Prod.snd).flatten) := List.perm_middle

/-- The grouping map has pairwise-distinct keys. -/
theorem groupByKey_keys_nodup (f : Memory → String) (l : List Memory) :
    ((groupByKey f l).map Prod.fst).Nodup := by
  suffices h : ∀ acc : List (String × List Memory), (acc.map Prod.fst).Nodup →
      ((l.foldl (fun acc m => insertGrouped (f m) m acc) acc).map Prod.fst).Nodup by
    exact h [] List.nodup_nil
  induction l with
  | nil => intro acc h; exact h
  | cons m rest ih =>
    intro acc h
    refine ih (insertGrouped (f m) m acc) ?_
    rw [insertGrouped_keys]
    by_cases hm : f m ∈ acc.map Prod.fst
    · simpa [hm] using h
    · simp only [hm, if_false]
      exact List.Nodup.append h (List.nodup_singleton _) (by simpa using hm)

/-- The groups of the grouping map partition the input list (their
concatenation is a permutation of it). -/
theorem groupByKey_flatten_perm (f : Memory → String) (l : List Memory) :
    List.Perm ((groupByKey f l).map Prod.snd).flatten l := by
  suffices h : ∀ acc : List (String × List Memory),
      List.Perm (((l.foldl (fun acc m => insertGrouped (f m) m acc) acc).map
          Prod.snd).flatten)
        ((acc.map Prod.snd).flatten ++ l) by
    simpa using h []
  induction l with
  | nil => intro acc; simp
  | cons m rest ih =>
    intro acc
    have h1 := ih (insertGrouped (f m) m acc)
    refine h1.trans ?_
    have h2 := (insertGrouped_flatten_perm (f m) m acc).append_right rest
    refine h2.trans ?_
    have h3 : List.Perm (m :: ((acc.map Prod.snd).flatten ++ rest))
        ((acc.map Prod.snd).flatten ++ m :: rest) := List.perm_middle.symm
    simpa using h3

/-- Every group of the grouping map is non-empty. -/
theorem groupByKey_groups_nonempty (f : Memory → String) (l : List Memory) :
    ∀ p ∈ groupByKey f l, p.2 ≠ [] := by
  suffices h : ∀ acc : List (String × List Memory), (∀ p ∈ acc, p.2 ≠ []) →
      ∀ p ∈ l.foldl (fun acc m => insertGrouped (f m) m acc) acc, p.2 ≠ [] by
    exact h [] (by simp)
  induction l with
  | nil => intro acc h; exact h
  | cons m rest ih =>
    intro acc h
    refine ih _ ?_
    intro p hp
    induction acc with
    | nil =>
      simp only [insertGrouped, List.mem_singleton] at hp
      subst hp; simp
    | cons q qrest ihq =>
      obtain ⟨k2, ms⟩ := q
      by_cases hk : k2 = f m
      · simp only [insertGrouped, if_pos hk, List.mem_cons] at hp
        rcases hp with hp | hp
        · subst hp; simp
        · exact h _ (List.mem_cons_of_mem _ hp)
      · simp only [insertGrouped, if_neg hk, List.mem_cons] at hp
        rcases hp with hp | hp
        · subst hp
          exact h _ (List.mem_cons_self _ _)
        · exact ihq (fun q hq => h q (List.mem_cons_of_mem _ hq)) hp

/-- With distinct keys, looking a key up returns its own group. -/
theorem mapLookup_self :
    ∀ (LM : List (String × List Memory)), ((LM.map Prod.fst).Nodup) →
      ∀ p ∈ LM, mapLookup LM p.1 = p.2
  | [], _, p, hp => absurd hp (List.not_mem_nil p)
  | (k, ms) :: rest, hnd, p, hp => by
    rcases List.mem_cons.1 hp with h | h
    · subst h
      simp [mapLookup, List.find?]
    · have hk : p.1 ≠ k := by
        intro he
        have : k ∈ rest.map Prod.fst := he ▸ List.mem_map_of_mem Prod.fst h
        simp only [List.map_cons, List.nodup_cons] at hnd
        exact hnd.1 this
      have ih := mapLookup_self rest (by
        simp only [List.map_cons, List.nodup_cons] at hnd
        exact hnd.2) p h
      simp only [mapLookup, List.find?] at ih ⊢
      rw [show (((k, ms).1 == p.1) = false) by
        simp [beq_iff_eq]
        exact fun hkk => hk hkk.symm]
      exact ih

/-- Enumerating all keys and looking each up yields exactly the groups. -/
theorem filterMap_keys_eq_groups :
    ∀ (LM : List (String × List Memory)), ((LM.map Prod.fst).Nodup) →
      (∀ p ∈ LM, p.2 ≠ []) →
      ((LM.map Prod.fst).filterMap (fun k =>
        match mapLookup LM k with
        | [] => none
        | m0 :: ms => some (m0 :: ms))) = LM.map Prod.snd := by
  intro LM hnd hne
  have hlk : ∀ k ∈ LM.map Prod.fst,
      (match mapLookup LM k with
        | [] => none
        | m0 :: ms => some (m0 :: ms)) = some (mapLookup LM k) := by
    intro k hk
    rcases List.mem_map.1 hk with ⟨p, hp, hpk⟩
    have := mapLookup_self LM hnd p hp
    rw [hpk] at this
    rw [this]
    cases hms : p.2 with
    | nil => exact absurd hms (hne p hp)
    | cons m0 ms => rfl
  calc (LM.map Prod.fst).filterMap (fun k =>
        match mapLookup LM k with
        | [] => none
        | m0 :: ms => some (m0 :: ms))
      = (LM.map Prod.fst).filterMap (fun k => some (mapLookup LM k)) :=
        List.filterMap_congr hlk
    _ = (LM.map Prod.fst).map (fun k => mapLookup LM k) := by
        rw [show (fun k => some (mapLookup LM k)) = some ∘ (fun k => mapLookup LM k) from rfl,
          List.filterMap_eq_map]
    _ = LM.map Prod.snd := by
        rw [List.map_map]
        refine List.map_congr_left ?_
        intro p hp
        exact mapLookup_self LM hnd p hp

/-- The member lists of the rendered output, in order (labels and cache
threading stripped away). -/
theorem renderPlaces_map_snd (lookup : String → List Memory) :
    ∀ (cache : List (String × String)) (keys : List String),
      ((renderPlaces lookup cache keys).1.map Prod.snd) =
        keys.filterMap (fun k =>
          match lookup k with
          | [] => none
          | m0 :: ms => some (m0 :: ms))
  | _, [] => rfl
  | cache, k :: rest => by
    cases hk : lookup k with
    | nil =>
      simp only [renderPlaces, hk, List.filterMap_cons]
      exact renderPlaces_map_snd lookup cache rest
    | cons m0 ms =>
      simp only [renderPlaces, hk, List.filterMap_cons, List.map_cons]
      rw [renderPlaces_map_snd lookup _ rest]

/-- `Object.keys` enumeration is a permutation of the keys. -/
theorem objKeys_perm (keys : List String) : List.Perm (objKeys keys) keys := by
  unfold objKeys
  have h1 := List.perm_insertionSort
    (fun a b => digitsVal a.data ≤ digitsVal b.data) (keys.filter isArrayIndexKey)
  exact (h1.append_right _).trans (List.filter_append_perm _ keys)

/-- C8 (amended): for every catalog, the place projection partitions the
memories by canonical location key (the concatenation of the groups is a
permutation of the catalog) and orders groups descending by member count;
ties retain first-encountered order *among keys that are not JavaScript
array-index strings* (for integer-like raw location keys, `Object.keys`
enumerates them first in ascending numeric order — see the counterexample);
each group is labelled by the `displayName` of its first member, as the
included (40.7128, -74.0060)/(40.7129, -74.0061)/(34.0522, -118.2437)
example shows: exactly 2 groups, the 2-member group first. -/
theorem c8_places_ordering (l : List Memory) (cache : List (String × String)) :
    (((generatePlaces l cache).1.map Prod.snd).Pairwise
        (fun g1 g2 => g2.length ≤ g1.length))
    ∧ List.Perm ((generatePlaces l cache).1.map Prod.snd).flatten l
    ∧ (∀ a b : String, isArrayIndexKey a = false → isArrayIndexKey b = false →
        (mapLookup (groupByKey (fun m => getNormalizedLocationKey m.location) l) a).length
          = (mapLookup (groupByKey (fun m => getNormalizedLocationKey m.location) l) b).length →
        List.Sublist [a, b]
          ((groupByKey (fun m => getNormalizedLocationKey m.location) l).map Prod.fst) →
        List.Sublist [a, b]
          (placeSortedKeys (groupByKey (fun m => getNormalizedLocationKey m.location) l)))
    ∧ ((generatePlaces [c8Mem1, c8Mem2, c8Mem3] []).1.map (fun g => (g.1, g.2.length))
        = [("40.71°N, 74.01°W", 2), ("34.05°N, 118.24°W", 1)]) := by
  have hmain : ∀ (l : List Memory) (cache : List (String × String)),
      (((generatePlaces l cache).1.map Prod.snd).Pairwise
        (fun g1 g2 => g2.length ≤ g1.length))
      ∧ List.Perm ((generatePlaces l cache).1.map Prod.snd).flatten l := by
    intro l cache
    have hmapsnd : ((generatePlaces l cache).1.map Prod.snd) =
        (placeSortedKeys (groupByKey (fun m => getNormalizedLocationKey m.location) l)).filterMap
          (fun k =>
            match mapLookup (groupByKey (fun m => getNormalizedLocationKey m.location) l) k with
            | [] => none
            | m0 :: ms => some (m0 :: ms)) :=
      renderPlaces_map_snd _ cache _
    constructor
    · rw [hmapsnd]
      refine List.pairwise_filterMap.2 ?_
      have hsorted : (placeSortedKeys
          (groupByKey (fun m => getNormalizedLocationKey m.location) l)).Sorted
            (placeCntLE (mapLookup (groupByKey (fun m => getNormalizedLocationKey m.location) l))) := by
        refine sorted_insertionSort_of _ (fun _ => True) ?_ ?_ _ (fun _ _ => trivial)
        · intro a b _ _
          unfold placeCntLE
          omega
        · intro a b c _ _ _ h1 h2
          unfold placeCntLE at h1 h2 ⊢
          omega
      refine hsorted.imp_of_mem ?_
      intro a b _ _ hab
      intro x hx y hy
      unfold placeCntLE at hab
      cases hla : mapLookup (groupByKey (fun m => getNormalizedLocationKey m.location) l) a with
      | nil => rw [hla] at hx; exact absurd hx (by simp)
      | cons m0 ms =>
        cases hlb : mapLookup (groupByKey (fun m => getNormalizedLocationKey m.location) l) b with
        | nil => rw [hlb] at hy; exact absurd hy (by simp)
        | cons n0 ns =>
          rw [hla] at hx hab
          rw [hlb] at hy hab
          simp only [Option.mem_def, Option.some.injEq] at hx hy
          subst hx
          subst hy
          simp only [List.length_cons] at hab ⊢
          omega
    · rw [hmapsnd]
      have hperm : List.Perm
          (placeSortedKeys (groupByKey (fun m => getNormalizedLocationKey m.location) l))
          ((groupByKey (fun m => getNormalizedLocationKey m.location) l).map Prod.fst) :=
        (List.perm_insertionSort _ _).trans (objKeys_perm _)
      have h2 := (hperm.filterMap (fun k =>
        match mapLookup (groupByKey (fun m => getNormalizedLocationKey m.location) l) k with
        | [] => none
        | m0 :: ms => some (m0 :: ms))).flatten
      refine h2.trans ?_
      rw [filterMap_keys_eq_groups _ (groupByKey_keys_nodup _ _) (groupByKey_groups_nonempty _ _)]
      exact groupByKey_flatten_perm _ _
  refine ⟨(hmain l cache).1, (hmain l cache).2, ?_, by decide⟩
  intro a b ha hb hlen hsub
  unfold placeSortedKeys
  apply List.pair_sublist_insertionSort
  · unfold placeCntLE
    omega
  · unfold objKeys
    have h1 : [a, b].filter (fun k => !isArrayIndexKey k) = [a, b] := by
      simp [ha, hb]
    have h2 := hsub.filter (fun k => !isArrayIndexKey k)
    rw [h1] at h2
    exact h2.trans (List.sublist_append_right _ _)

/-- C8 counterexample: two memories with raw locations "2" then "1" (equal
group sizes, so a tie).  First-encountered order is ["2", "1"], but the
rendered groups come out ["1", "2"]: both keys are array-index strings, and
`Object.keys` enumerates those in ascending numeric order before the
stable count sort, which preserves the tie.  So ties do not always retain
first-encountered order. -/
theorem c8_counterexample :
    (generatePlaces [c8MemA, c8MemB] []).1.map (fun g => (g.1, g.2.length))
      = [("1", 1), ("2", 1)]
    ∧ (groupByKey (fun m => getNormalizedLocationKey m.location) [c8MemA, c8MemB]).map
        Prod.fst = ["2", "1"] := by
  exact ⟨by decide, by decide⟩

/-- Witness for the amended C8 theorem on two tied groups with non-index
keys: the tie keeps first-encountered order. -/
theorem c8_places_ordering_witness :
    (((generatePlaces [c8MemX, c8MemY] []).1.map Prod.snd).Pairwise
        (fun g1 g2 => g2.length ≤ g1.length))
    ∧ List.Sublist ["x-loc", "y-loc"]
        (placeSortedKeys (groupByKey (fun m => getNormalizedLocationKey m.location)
          [c8MemX, c8MemY])) :=
  ⟨(c8_places_ordering [c8MemX, c8MemY] []).1,
   (c8_places_ordering [c8MemX, c8MemY] []).2.2.1 "x-loc" "y-loc"
     (by decide) (by decide) (by decide) (by decide)⟩

/-! ## Claim C7: year/month projection -/

/-- Month keys after one insertion: unchanged for a seen key, appended
otherwise. -/
theorem insertMonth_keys (mo : Option (Fin 12)) (m : Memory) :
    ∀ months : List (Option (Fin 12) × List Memory),
      (insertMonth mo m months).map Prod.fst =
        (if mo ∈ months.map Prod.fst then months.map Prod.fst
         else months.map Prod.fst ++ [mo])
  | [] => by simp [insertMonth]
  | (k, ms) :: rest => by
    by_cases h : k = mo
    · simp [insertMonth, h]
    · have hik := insertMonth_keys mo m rest
      by_cases h2 : mo ∈ rest.map Prod.fst <;>
        simp [insertMonth, h, Ne.symm h, h2, hik]

/-- Year keys after one insertion: unchanged for a seen key, appended
otherwise. -/
theorem insertYear_keys (y : Option Int) (mo : Option (Fin 12)) (m : Memory) :
    ∀ acc : List (Option Int × List (Option (Fin 12) × List Memory)),
      (insertYear y mo m acc).map Prod.fst =
        (if y ∈ acc.map Prod.fst then acc.map Prod.fst else acc.map Prod.fst ++ [y])
  | [] => by simp [insertYear]
  | (k, months) :: rest => by
    by_cases h : k = y
    · simp [insertYear, h]
    · have hik := insertYear_keys y mo m rest
      by_cases h2 : y ∈ rest.map Prod.fst <;>
        simp [insertYear, h, Ne.symm h, h2, hik]

/-- Decomposition of the entries after a year insertion: an untouched old
entry, a fresh year, or an old year with one month insertion. -/
theorem mem_insertYear (y : Option Int) (mo : Option (Fin 12)) (m : Memory) :
    ∀ (acc : List (Option Int × List (Option (Fin 12) × List Memory)))
      (p : Option Int × List (Option (Fin 12) × List Memory)),
      p ∈ insertYear y mo m acc →
      p ∈ acc ∨ p = (y, [(mo, [m])])
        ∨ ∃ months, (y, months) ∈ acc ∧ p = (y, insertMonth mo m months)
  | [], p, hp => by
    simp only [insertYear, List.mem_singleton] at hp
    exact Or.inr (Or.inl hp)
  | (k, months) :: rest, p, hp => by
    by_cases h : k = y
    · rw [insertYear, if_pos h] at hp
      rcases List.mem_cons.1 hp with hp | hp
      · subst h
        exact Or.inr (Or.inr ⟨months, List.mem_cons_self _ _, hp⟩)
      · exact Or.inl (List.mem_cons_of_mem _ hp)
    · rw [insertYear, if_neg h] at hp
      rcases List.mem_cons.1 hp with hp | hp
      · exact Or.inl (hp ▸ List.mem_cons_self _ _)
      · rcases mem_insertYear y mo m rest p hp with h1 | h1 | ⟨ms2, hm, he⟩
        · exact Or.inl (List.mem_cons_of_mem _ h1)
        · exact Or.inr (Or.inl h1)
        · exact Or.inr (Or.inr ⟨ms2, List.mem_cons_of_mem _ hm, he⟩)

/-- Structural invariants of the year map when every date is valid: year
keys are distinct and valid, and each year's month keys are distinct and
valid. -/
theorem yearMap_inv (host : Host) (l : List Memory)
    (hvalid : ∀ m ∈ l, (parseMemoryDate host m.date).isSome = true) :
    ((yearMap host l).map Prod.fst).Nodup
    ∧ (∀ y ∈ (yearMap host l).map Prod.fst, y.isSome = true)
    ∧ (∀ p ∈ yearMap host l, (p.2.map Prod.fst).Nodup
        ∧ ∀ q ∈ p.2.map Prod.fst, q.isSome = true) := by
  suffices h : ∀ (l2 : List Memory)
      (acc : List (Option Int × List (Option (Fin 12) × List Memory))),
      (∀ m ∈ l2, (parseMemoryDate host m.date).isSome = true) →
      (acc.map Prod.fst).Nodup →
      (∀ y ∈ acc.map Prod.fst, y.isSome = true) →
      (∀ p ∈ acc, (p.2.map Prod.fst).Nodup ∧ ∀ q ∈ p.2.map Prod.fst, q.isSome = true) →
      ((l2.foldl (fun acc m =>
          insertYear (yearMonthOf host m).1 (yearMonthOf host m).2 m acc) acc).map
            Prod.fst).Nodup
      ∧ (∀ y ∈ (l2.foldl (fun acc m =>
          insertYear (yearMonthOf host m).1 (yearMonthOf host m).2 m acc) acc).map
            Prod.fst, y.isSome = true)
      ∧ (∀ p ∈ l2.foldl (fun acc m =>
          insertYear (yearMonthOf host m).1 (yearMonthOf host m).2 m acc) acc,
          (p.2.map Prod.fst).Nodup ∧ ∀ q ∈ p.2.map Prod.fst, q.isSome = true) by
    exact h l [] hvalid List.nodup_nil (by simp) (by simp)
  intro l2
  induction l2 with
  | nil => intro acc _ h1 h2 h3; exact ⟨h1, h2, h3⟩
  | cons m rest ih =>
    intro acc hval h1 h2 h3
    have hm := hval m (List.mem_cons_self _ _)
    have hys : (yearMonthOf host m).1.isSome = true ∧
        (yearMonthOf host m).2.isSome = true := by
      unfold yearMonthOf
      rcases Option.isSome_iff_exists.1 hm with ⟨t, ht⟩
      rw [ht]
      exact ⟨rfl, rfl⟩
    refine ih _ (fun m2 hm2 => hval m2 (List.mem_cons_of_mem _ hm2)) ?_ ?_ ?_
    · rw [insertYear_keys]
      by_cases hmem : (yearMonthOf host m).1 ∈ acc.map Prod.fst
      · simpa [hmem] using h1
      · simp only [hmem, if_false]
        exact List.Nodup.append h1 (List.nodup_singleton _) (by simpa using hmem)
    · intro y hy
      rw [insertYear_keys] at hy
      by_cases hmem : (yearMonthOf host m).1 ∈ acc.map Prod.fst
      · rw [if_pos hmem] at hy
        exact h2 y hy
      · rw [if_neg hmem] at hy
        rcases List.mem_append.1 hy with hy | hy
        · exact h2 y hy
        · rw [List.mem_singleton.1 hy]
          exact hys.1
    · intro p hp
      rcases mem_insertYear _ _ _ _ p hp with hp2 | hp2 | ⟨months, hmm, hpe⟩
      · exact h3 p hp2
      · subst hp2
        constructor
        · simp
        · intro q hq
          rw [show q = (yearMonthOf host m).2 by simpa using hq]
          exact hys.2
      · subst hpe
        have hold := h3 _ hmm
        constructor
        · rw [insertMonth_keys]
          by_cases hmem : (yearMonthOf host m).2 ∈ months.map Prod.fst
          · simpa [hmem] using hold.1
          · simp only [hmem, if_false]
            exact List.Nodup.append hold.1 (List.nodup_singleton _) (by simpa using hmem)
        · intro q hq
          rw [insertMonth_keys] at hq
          by_cases hmem : (yearMonthOf host m).2 ∈ months.map Prod.fst
          · rw [if_pos hmem] at hq
            exact hold.2 q hq
          · rw [if_neg hmem] at hq
            rcases List.mem_append.1 hq with hq | hq
            · exact hold.2 q hq
            · rw [List.mem_singleton.1 hq]
              exact hys.2

/-- `Object.keys` enumeration of the year map is a permutation of its
keys. -/
theorem objYearKeys_perm (keys : List (Option Int)) :
    List.Perm (objYearKeys keys) keys := by
  unfold objYearKeys
  have h1 := List.perm_insertionSort
    (fun a b : Option Int => a.getD 0 ≤ b.getD 0) (keys.filter isYearIndexKey)
  exact (h1.append_right _).trans (List.filter_append_perm _ keys)

/-- C7: for every catalog whose memories all carry valid parsable dates,
the year/month projection orders year groups strictly descending
numerically and month groups within a year strictly descending by
month-of-year index, and each month group's carried count equals its number
of members; the example catalog dated 2024-03-01, 2024-03-15, 2023-12-25
yields year keys [2024, 2023] in that order with 2024 containing the single
month group "March" of size 2 (and totals 2 and 1).  (For invalid dates the
source buckets by a NaN-derived year key, which the spec itself flags as an
open design question, so the ordering statement is about valid years.) -/
theorem c7_year_month_projection (host : Host) (l : List Memory)
    (hvalid : ∀ m ∈ l, (parseMemoryDate host m.date).isSome = true) :
    ((generateYears host l).map YearGroup.year).Pairwise
      (fun a b => b.getD 0 < a.getD 0)
    ∧ (∀ g ∈ generateYears host l,
        (g.months.map MonthGroup.month).Pairwise
          (fun a b => (b.getD 0).val < (a.getD 0).val))
    ∧ (∀ g ∈ generateYears host l, ∀ mg ∈ g.months, mg.count = mg.members.length)
    ∧ ((generateYears c7Host c7Mems).map YearGroup.year = [some 2024, some 2023]
        ∧ (generateYears c7Host c7Mems).map YearGroup.total = [2, 1]
        ∧ (generateYears c7Host c7Mems).map (fun g => g.months.map MonthGroup.month)
            = [[some 2], [some 11]]
        ∧ (generateYears c7Host c7Mems).map (fun g => g.months.map MonthGroup.monthName)
            = [["March"], ["December"]]
        ∧ (generateYears c7Host c7Mems).map (fun g => g.months.map MonthGroup.count)
            = [[2], [1]]) := by
  obtain ⟨hknd, hksome, hmonths⟩ := yearMap_inv host l hvalid
  have hkperm : List.Perm
      (List.insertionSort yearLE (objYearKeys ((yearMap host l).map Prod.fst)))
      ((yearMap host l).map Prod.fst) :=
    (List.perm_insertionSort _ _).trans (objYearKeys_perm _)
  have hyears : (generateYears host l).map YearGroup.year =
      List.insertionSort yearLE (objYearKeys ((yearMap host l).map Prod.fst)) := by
    unfold generateYears
    rw [List.map_map]
    refine Eq.trans (List.map_congr_left ?_) (List.map_id _)
    intro y _
    rfl
  refine ⟨?_, ?_, ?_, by decide, by decide, by decide, by decide, by decide⟩
  · rw [hyears]
    have hsorted : (List.insertionSort yearLE
        (objYearKeys ((yearMap host l).map Prod.fst))).Sorted yearLE := by
      refine sorted_insertionSort_of yearLE (fun y => y.isSome = true) ?_ ?_ _ ?_
      · intro a b ha hb
        rcases Option.isSome_iff_exists.1 ha with ⟨x, hx⟩
        rcases Option.isSome_iff_exists.1 hb with ⟨y, hy⟩
        subst hx; subst hy
        unfold yearLE yearCmp
        dsimp only
        omega
      · intro a b c ha hb hc h1 h2
        rcases Option.isSome_iff_exists.1 ha with ⟨x, hx⟩
        rcases Option.isSome_iff_exists.1 hb with ⟨y, hy⟩
        rcases Option.isSome_iff_exists.1 hc with ⟨z, hz⟩
        subst hx; subst hy; subst hz
        unfold yearLE yearCmp at h1 h2 ⊢
        dsimp only at h1 h2 ⊢
        omega
      · intro y hy
        exact hksome y ((objYearKeys_perm _).subset hy)
    have hnd : (List.insertionSort yearLE
        (objYearKeys ((yearMap host l).map Prod.fst))).Nodup :=
      (hkperm.nodup_iff).2 hknd
    have hand := List.Pairwise.and hsorted hnd
    refine hand.imp_of_mem ?_
    intro a b ha hb hab
    rcases Option.isSome_iff_exists.1 (hksome a (hkperm.subset ha)) with ⟨x, hx⟩
    rcases Option.isSome_iff_exists.1 (hksome b (hkperm.subset hb)) with ⟨y, hy⟩
    subst hx; subst hy
    obtain ⟨h1, h2⟩ := hab
    unfold yearLE yearCmp at h1
    dsimp only at h1
    simp only [Option.getD_some]
    have : x ≠ y := fun he => h2 (he ▸ rfl)
    omega
  · intro g hg
    unfold generateYears at hg
    rcases List.mem_map.1 hg with ⟨y, hy, hge⟩
    subst hge
    dsimp only
    cases hf : (yearMap host l).find? (fun e => e.1 == y) with
    | none =>
      unfold lookupYear
      rw [hf]
      simp [List.insertionSort]
    | some e =>
      unfold lookupYear
      rw [hf]
      have he2 : ((Option.map Prod.snd (some e)).getD ([] : List (Option (Fin 12) × List Memory))) = e.2 := rfl
      rw [he2]
      have hemem : e ∈ yearMap host l := List.mem_of_find?_eq_some hf
      obtain ⟨hmnd, hmsome⟩ := hmonths e hemem
      have hmperm := List.perm_insertionSort monthLE (e.2.map Prod.fst)
      rw [List.map_map]
      have hmm : (List.map
          ((fun mg => mg.month) ∘ (fun mo =>
            ({ month := mo, monthName := monthDisplay mo,
               count := (lookupMonth e.2 mo).length,
               members := lookupMonth e.2 mo } : MonthGroup)))
          (List.insertionSort monthLE (e.2.map Prod.fst)))
          = List.insertionSort monthLE (e.2.map Prod.fst) := by
        refine Eq.trans (List.map_congr_left ?_) (List.map_id _)
        intro mo _
        rfl
      rw [hmm]
      have hsorted : (List.insertionSort monthLE (e.2.map Prod.fst)).Sorted monthLE := by
        refine sorted_insertionSort_of monthLE (fun q => q.isSome = true) ?_ ?_ _ hmsome
        · intro a b ha hb
          rcases Option.isSome_iff_exists.1 ha with ⟨x, hx⟩
          rcases Option.isSome_iff_exists.1 hb with ⟨y2, hy2⟩
          subst hx; subst hy2
          unfold monthLE monthCmp
          dsimp only
          omega
        · intro a b c ha hb hc h1 h2
          rcases Option.isSome_iff_exists.1 ha with ⟨x, hx⟩
          rcases Option.isSome_iff_exists.1 hb with ⟨y2, hy2⟩
          rcases Option.isSome_iff_exists.1 hc with ⟨z, hz⟩
          subst hx; subst hy2; subst hz
          unfold monthLE monthCmp at h1 h2 ⊢
          dsimp only at h1 h2 ⊢
          omega
      have hnd : (List.insertionSort monthLE (e.2.map Prod.fst)).Nodup :=
        (hmperm.nodup_iff).2 hmnd
      have hand := List.Pairwise.and hsorted hnd
      refine hand.imp_of_mem ?_
      intro a b ha hb hab
      rcases Option.isSome_iff_exists.1 (hmsome a (hmperm.subset ha)) with ⟨x, hx⟩
      rcases Option.isSome_iff_exists.1 (hmsome b (hmperm.subset hb)) with ⟨y2, hy2⟩
      subst hx; subst hy2
      obtain ⟨h1, h2⟩ := hab
      unfold monthLE monthCmp at h1
      dsimp only at h1
      simp only [Option.getD_some]
      have : x ≠ y2 := fun he => h2 (he ▸ rfl)
      have : x.val ≠ y2.val := fun he => this (Fin.ext he)
      omega
  · intro g hg mg hmg
    unfold generateYears at hg
    rcases List.mem_map.1 hg with ⟨y, hy, hge⟩
    subst hge
    dsimp only at hmg
    rcases List.mem_map.1 hmg with ⟨mo, hmo, hmge⟩
    subst hmge
    rfl

/-- Witness for C7 at the example catalog. -/
theorem c7_year_month_projection_witness :
    ((generateYears c7Host c7Mems).map YearGroup.year).Pairwise
      (fun a b => b.getD 0 < a.getD 0)
    ∧ (∀ g ∈ generateYears c7Host c7Mems,
        (g.months.map MonthGroup.month).Pairwise
          (fun a b => (b.getD 0).val < (a.getD 0).val))
    ∧ (∀ g ∈ generateYears c7Host c7Mems, ∀ mg ∈ g.months, mg.count = mg.members.length)
    ∧ ((generateYears c7Host c7Mems).map YearGroup.year = [some 2024, some 2023]
        ∧ (generateYears c7Host c7Mems).map YearGroup.total = [2, 1]
        ∧ (generateYears c7Host c7Mems).map (fun g => g.months.map MonthGroup.month)
            = [[some 2], [some 11]]
        ∧ (generateYears c7Host c7Mems).map (fun g => g.months.map MonthGroup.monthName)
            = [["March"], ["December"]]
        ∧ (generateYears c7Host c7Mems).map (fun g => g.months.map MonthGroup.count)
            = [[2], [1]]) :=
  c7_year_month_projection c7Host c7Mems (by decide)
